import Mathlib

/-!
Verification of the kiwi-rs runtime layer: bounded recency caches, the cache
invalidation controller, the chunk glue engine, the spacing reconstructor and
the sentence segmenter, shallowly embedded from `src/runtime.rs`.

Modelling conventions:
* The native analyzer (FFI) is represented by explicit oracle functions passed
  as parameters; a deterministic Lean function models the deterministic native
  call.  Fallible native calls return `Except KiwiError`.
* `f32` values that are only stored and compared for equality are carried as
  their IEEE-754 bit patterns (`to_bits`, a `Nat`), exactly as the cache keys
  in the source do.  Language-model scores, which are only compared with `>=`,
  are carried in an arbitrary type `σ` together with the boolean comparison
  `sge` and the `f32::NEG_INFINITY` default, so theorems quantify over every
  possible score assignment.
* Rust `VecDeque` caches become Lean lists whose head is the deque front;
  `push_front` is `cons`, `pop_back` is `dropLast`, `push_back` is `++ [e]`,
  `pop_front` is `drop 1`, `remove i` is `eraseIdx i`.
* Rust string slicing `&text[map[b]..map[e]]` (which panics when out of
  bounds) is modelled as an `Option`-returning function over the character
  list; the byte offsets of `build_char_to_byte_map` become character offsets
  (the map is strictly monotone, so byte slicing at mapped offsets and
  character slicing at the raw indices produce the same character sequence).
-/

/-- `Iterator::position(p)` on a list: index of the first element satisfying
`p`, if any. -/
def position? {α : Type} (p : α → Bool) : List α → Option Nat
  | [] => none
  | x :: xs => if p x then some 0 else (position? p xs).map (· + 1)

/-- Rust `char::is_whitespace`: the Unicode `White_Space` property. -/
def rust_is_whitespace (c : Char) : Bool :=
  c.toNat == 0x09 || c.toNat == 0x0A || c.toNat == 0x0B || c.toNat == 0x0C ||
  c.toNat == 0x0D || c.toNat == 0x20 || c.toNat == 0x85 || c.toNat == 0xA0 ||
  c.toNat == 0x1680 || (0x2000 ≤ c.toNat && c.toNat ≤ 0x200A) ||
  c.toNat == 0x2028 || c.toNat == 0x2029 || c.toNat == 0x202F ||
  c.toNat == 0x205F || c.toNat == 0x3000

/-- Rust `str::trim`: removes leading and trailing Unicode whitespace. -/
def rust_trim (s : String) : String :=
  String.mk (((s.data.dropWhile rust_is_whitespace).reverse.dropWhile
    rust_is_whitespace).reverse)

/-- `pack_edge` from `runtime.rs`: packs up to 8 bytes little-endian-style into
a `u64`; at most 8 bytes are ever supplied so the value stays below `2^64`. -/
def pack_edge_aux : Nat → List Nat → Nat
  | _, [] => 0
  | idx, b :: rest => (b <<< (idx * 8)) ||| pack_edge_aux (idx + 1) rest

def pack_edge (bytes : List Nat) : Nat := pack_edge_aux 0 bytes

/-- `TextFingerprint` from `runtime.rs`: byte length plus the first/last 8
bytes of the UTF-8 encoding, packed. -/
structure TextFingerprint where
  len : Nat
  head : Nat
  tail : Nat
deriving DecidableEq, Repr

def TextFingerprint.of (text : String) : TextFingerprint :=
  let bytes := (String.toUTF8 text).toList.map (fun b => b.toNat)
  { len := bytes.length
    head := pack_edge (bytes.take 8)
    tail := pack_edge (bytes.reverse.take 8) }

/-- FNV-style mixer `mix_u64` from `runtime.rs`; `u64` arithmetic is `Nat`
arithmetic reduced `% 2^64`. -/
def mix_u64 (state value : Nat) : Nat :=
  let state := if state == 0 then 0xcbf29ce484222325 else state
  let state := Nat.xor state (value % 2 ^ 64)
  (state * 0x00000100000001B3) % 2 ^ 64

/-- `glue_fingerprint` from `runtime.rs`. -/
def glue_fingerprint (chunks : List String) (insert_new_lines : Option (List Bool)) : Nat :=
  let state := mix_u64 0 chunks.length
  let state := chunks.foldl (fun st chunk =>
    let fp := TextFingerprint.of chunk
    mix_u64 (mix_u64 (mix_u64 st fp.len) fp.head) fp.tail) state
  match insert_new_lines with
  | some flags =>
    let state := mix_u64 (mix_u64 state 1) flags.length
    flags.foldl (fun st flag => mix_u64 st (if flag then 1 else 0)) state
  | none => mix_u64 state 0

/-- Error taxonomy of the crate (`error.rs`); only the shape matters here. -/
inductive KiwiError where
  | invalidArgument (msg : String)
  | unsupportedOperation (msg : String)
  | native (msg : String)
deriving DecidableEq, Repr

/-- `AnalyzeOptions` (`types.rs`); `dialect_cost : f32` is carried as its
IEEE-754 bit pattern, the form under which the cache keys store it. -/
structure AnalyzeOptions where
  top_n : Nat
  match_options : Int
  open_ending : Bool
  allowed_dialects : Int
  dialect_cost_bits : Nat
deriving DecidableEq, Repr

def AnalyzeOptions.with_top_n (options : AnalyzeOptions) (top_n : Nat) : AnalyzeOptions :=
  { options with top_n := top_n }

/-- `Token` (`types.rs`), restricted to the fields the cache subsystem and the
reconstruction algorithms read (`form`, `tag`, `position`, `length`,
`sent_position`, `sub_sent_position`); the remaining fields are
pass-through metadata never inspected by the embedded code. -/
structure Token where
  form : String
  tag : String
  position : Nat
  length : Nat
  sent_position : Nat
  sub_sent_position : Nat
deriving DecidableEq, Repr

/-- `AnalysisCandidate` (`types.rs`); the probability `f32` is carried as its
bit pattern (it is stored and returned, never computed on). -/
structure AnalysisCandidate where
  probability_bits : Nat
  tokens : List Token
deriving DecidableEq, Repr

/-- `SentenceBoundary` payload of the split cache; opaque payload for the
cache theorems. -/
structure SentenceBoundary where
  start : Nat
  stop : Nat
deriving DecidableEq, Repr

/-- A regex pretokenization rule added by `add_re_word`; the compiled regex is
represented by its pattern text (the runtime never introspects it beyond
matching, which no claim touches). -/
structure ReWordRule where
  pattern : String
  tag : String
deriving DecidableEq, Repr

/-- Cache capacities from `runtime.rs`. -/
def JOIN_CACHE_CAPACITY : Nat := 16
def TOKENIZE_CACHE_CAPACITY : Nat := 256
def ANALYZE_CACHE_CAPACITY : Nat := 128
def SPLIT_CACHE_CAPACITY : Nat := 64
def GLUE_CACHE_CAPACITY : Nat := 64
def GLUE_PAIR_CACHE_CAPACITY : Nat := 256

/-- `TokenizeCacheKey::from_options`. -/
structure TokenizeCacheKey where
  match_options : Int
  open_ending : Bool
  allowed_dialects : Int
  dialect_cost_bits : Nat
deriving DecidableEq, Repr

def TokenizeCacheKey.from_options (options : AnalyzeOptions) : TokenizeCacheKey :=
  { match_options := options.match_options
    open_ending := options.open_ending
    allowed_dialects := options.allowed_dialects
    dialect_cost_bits := options.dialect_cost_bits }

structure TokenizeCacheEntry where
  key : TokenizeCacheKey
  fingerprint : TextFingerprint
  text : String
  tokens : List Token
deriving DecidableEq, Repr

def TokenizeCacheEntry.matches (e : TokenizeCacheEntry) (text : String)
    (key : TokenizeCacheKey) (fingerprint : TextFingerprint) : Bool :=
  decide (e.key = key) && decide (e.fingerprint = fingerprint) && decide (e.text = text)

/-- `AnalyzeCacheKey::from_options`. -/
structure AnalyzeCacheKey where
  top_n : Nat
  match_options : Int
  open_ending : Bool
  allowed_dialects : Int
  dialect_cost_bits : Nat
deriving DecidableEq, Repr

def AnalyzeCacheKey.from_options (options : AnalyzeOptions) : AnalyzeCacheKey :=
  { top_n := options.top_n
    match_options := options.match_options
    open_ending := options.open_ending
    allowed_dialects := options.allowed_dialects
    dialect_cost_bits := options.dialect_cost_bits }

structure AnalyzeCacheEntry where
  key : AnalyzeCacheKey
  fingerprint : TextFingerprint
  text : String
  candidates : List AnalysisCandidate
deriving DecidableEq, Repr

def AnalyzeCacheEntry.matches (e : AnalyzeCacheEntry) (text : String)
    (key : AnalyzeCacheKey) (fingerprint : TextFingerprint) : Bool :=
  decide (e.key = key) && decide (e.fingerprint = fingerprint) && decide (e.text = text)

structure SplitCacheEntry where
  match_options : Int
  fingerprint : TextFingerprint
  text : String
  boundaries : List SentenceBoundary
deriving DecidableEq, Repr

def SplitCacheEntry.matches (e : SplitCacheEntry) (text : String)
    (match_options : Int) (fingerprint : TextFingerprint) : Bool :=
  decide (e.match_options = match_options) && decide (e.fingerprint = fingerprint) &&
    decide (e.text = text)

structure GlueCacheEntry where
  fingerprint : Nat
  chunks : List String
  insert_new_lines : Option (List Bool)
  glued_text : String
  space_insertions : List Bool
deriving DecidableEq, Repr

def GlueCacheEntry.matches (e : GlueCacheEntry) (chunks : List String)
    (insert_new_lines : Option (List Bool)) (fingerprint : Nat) : Bool :=
  decide (e.fingerprint = fingerprint) && decide (e.chunks = chunks) &&
    decide (e.insert_new_lines = insert_new_lines)

structure GluePairScoreCacheEntry where
  left : String
  right : String
  insert_space : Bool
deriving DecidableEq, Repr

def GluePairScoreCacheEntry.matches (e : GluePairScoreCacheEntry)
    (left right : String) : Bool :=
  decide (e.left = left) && decide (e.right = right)

/-- `JoinCacheEntry`: the prepared native joiner handle is modelled by an
identifier; its rendered output is produced by an oracle where needed. -/
structure JoinCacheEntry where
  lm_search : Bool
  morphs : List (String × String)
  joiner : Nat
deriving DecidableEq, Repr

def JoinCacheEntry.matches (e : JoinCacheEntry)
    (morphs : List (String × String)) (lm_search : Bool) : Bool :=
  decide (e.lm_search = lm_search) && decide (e.morphs = morphs)

/-- The per-instance mutable state of a `Kiwi` value: its six bounded caches,
its default analyze options and its regex pretokenization rules. -/
structure KiwiState where
  tokenize_cache : List TokenizeCacheEntry
  analyze_cache : List AnalyzeCacheEntry
  split_cache : List SplitCacheEntry
  glue_cache : List GlueCacheEntry
  glue_pair_cache : List GluePairScoreCacheEntry
  join_cache : List JoinCacheEntry
  default_analyze_options : AnalyzeOptions
  re_word_rules : List ReWordRule
deriving DecidableEq, Repr

/-- Generic shape of the five text caches' `lookup_*_cache`: find the first
matching entry, remove it, and push it to the front, returning a copy of its
payload.  A miss leaves the cache untouched. -/
def cacheLookupMTF {ε α : Type} (p : ε → Bool) (value : ε → α)
    (cache : List ε) : Option α × List ε :=
  match position? p cache with
  | none => (none, cache)
  | some i =>
    match cache.get? i with
    | none => (none, cache)
    | some e => (some (value e), e :: cache.eraseIdx i)

/-- Generic shape of the five text caches' `insert_*_cache`: remove a prior
duplicate, pop the back when at capacity, then push the new entry to the
front. -/
def cacheInsertFront {ε : Type} (cap : Nat) (p : ε → Bool) (e : ε)
    (cache : List ε) : List ε :=
  let deduped :=
    match position? p cache with
    | some i => cache.eraseIdx i
    | none => cache
  let bounded := if cap ≤ deduped.length then deduped.dropLast else deduped
  e :: bounded

/-- The join cache's hit path inside `join_with_cache`: the matched entry is
removed and pushed to the *back*; the served entry is returned (its joiner
renders the output). -/
def lookup_join_cache (morphs : List (String × String)) (lm_search : Bool)
    (cache : List JoinCacheEntry) : Option JoinCacheEntry × List JoinCacheEntry :=
  match position? (fun e => e.matches morphs lm_search) cache with
  | none => (none, cache)
  | some i =>
    match cache.get? i with
    | none => (none, cache)
    | some e => (some e, cache.eraseIdx i ++ [e])

/-- The join cache's insert path inside `join_with_cache`: pop the *front*
when at capacity, then push the new entry to the *back* (no dedup pass; the
caller only inserts after a miss). -/
def insert_join_cache (entry : JoinCacheEntry)
    (cache : List JoinCacheEntry) : List JoinCacheEntry :=
  let cache := if JOIN_CACHE_CAPACITY ≤ cache.length then cache.drop 1 else cache
  cache ++ [entry]

/-- `Kiwi::lookup_tokenize_cache`. -/
def lookup_tokenize_cache (text : String) (key : TokenizeCacheKey)
    (cache : List TokenizeCacheEntry) : Option (List Token) × List TokenizeCacheEntry :=
  cacheLookupMTF (fun e => e.matches text key (TextFingerprint.of text))
    (fun e => e.tokens) cache

/-- `Kiwi::insert_tokenize_cache`. -/
def insert_tokenize_cache (text : String) (key : TokenizeCacheKey)
    (tokens : List Token) (cache : List TokenizeCacheEntry) : List TokenizeCacheEntry :=
  cacheInsertFront TOKENIZE_CACHE_CAPACITY
    (fun e => e.matches text key (TextFingerprint.of text))
    { key := key, fingerprint := TextFingerprint.of text, text := text, tokens := tokens }
    cache

/-- `Kiwi::lookup_analyze_cache`. -/
def lookup_analyze_cache (text : String) (key : AnalyzeCacheKey)
    (cache : List AnalyzeCacheEntry) : Option (List AnalysisCandidate) × List AnalyzeCacheEntry :=
  cacheLookupMTF (fun e => e.matches text key (TextFingerprint.of text))
    (fun e => e.candidates) cache

/-- `Kiwi::insert_analyze_cache`. -/
def insert_analyze_cache (text : String) (key : AnalyzeCacheKey)
    (candidates : List AnalysisCandidate) (cache : List AnalyzeCacheEntry) :
    List AnalyzeCacheEntry :=
  cacheInsertFront ANALYZE_CACHE_CAPACITY
    (fun e => e.matches text key (TextFingerprint.of text))
    { key := key, fingerprint := TextFingerprint.of text, text := text,
      candidates := candidates }
    cache

/-- `Kiwi::lookup_split_cache`. -/
def lookup_split_cache (text : String) (match_options : Int)
    (cache : List SplitCacheEntry) : Option (List SentenceBoundary) × List SplitCacheEntry :=
  cacheLookupMTF (fun e => e.matches text match_options (TextFingerprint.of text))
    (fun e => e.boundaries) cache

/-- `Kiwi::insert_split_cache`. -/
def insert_split_cache (text : String) (match_options : Int)
    (boundaries : List SentenceBoundary) (cache : List SplitCacheEntry) :
    List SplitCacheEntry :=
  cacheInsertFront SPLIT_CACHE_CAPACITY
    (fun e => e.matches text match_options (TextFingerprint.of text))
    { match_options := match_options, fingerprint := TextFingerprint.of text,
      text := text, boundaries := boundaries }
    cache

/-- `Kiwi::lookup_glue_cache`. -/
def lookup_glue_cache (chunks : List String) (insert_new_lines : Option (List Bool))
    (cache : List GlueCacheEntry) : Option (String × List Bool) × List GlueCacheEntry :=
  cacheLookupMTF
    (fun e => e.matches chunks insert_new_lines (glue_fingerprint chunks insert_new_lines))
    (fun e => (e.glued_text, e.space_insertions)) cache

/-- `Kiwi::insert_glue_cache`. -/
def insert_glue_cache (chunks : List String) (insert_new_lines : Option (List Bool))
    (glued_text : String) (space_insertions : List Bool)
    (cache : List GlueCacheEntry) : List GlueCacheEntry :=
  cacheInsertFront GLUE_CACHE_CAPACITY
    (fun e => e.matches chunks insert_new_lines (glue_fingerprint chunks insert_new_lines))
    { fingerprint := glue_fingerprint chunks insert_new_lines, chunks := chunks,
      insert_new_lines := insert_new_lines, glued_text := glued_text,
      space_insertions := space_insertions }
    cache

/-- `Kiwi::lookup_glue_pair_cache`. -/
def lookup_glue_pair_cache (left right : String)
    (cache : List GluePairScoreCacheEntry) : Option Bool × List GluePairScoreCacheEntry :=
  cacheLookupMTF (fun e => e.matches left right) (fun e => e.insert_space) cache

/-- `Kiwi::insert_glue_pair_cache`. -/
def insert_glue_pair_cache (left right : String) (insert_space : Bool)
    (cache : List GluePairScoreCacheEntry) : List GluePairScoreCacheEntry :=
  cacheInsertFront GLUE_PAIR_CACHE_CAPACITY (fun e => e.matches left right)
    { left := left, right := right, insert_space := insert_space } cache

/-- `Kiwi::clear_inference_caches`: clears the tokenize/analyze/split/glue/
glue-pair caches; the join cache is deliberately left alone.  (The source's
`try_borrow_mut` always succeeds in the single-threaded runtime model.) -/
def clear_inference_caches (st : KiwiState) : KiwiState :=
  { st with
    tokenize_cache := []
    analyze_cache := []
    split_cache := []
    glue_cache := []
    glue_pair_cache := [] }

/-- `Kiwi::set_global_config`.  The native call's outcome (including a missing
`kiwi_set_global_config` symbol) is supplied as `ffi`; the config payload is
opaque to the cache subsystem. -/
def set_global_config {γ : Type} (ffi : Option KiwiError) (_config : γ)
    (st : KiwiState) : Except KiwiError Unit × KiwiState :=
  match ffi with
  | some e => (Except.error e, st)
  | none => (Except.ok (), clear_inference_caches st)

/-- `Kiwi::set_option` (named with an apostrophe because `set_option` is a
Lean keyword). -/
def set_option' (ffi : Option KiwiError) (_option _value : Int)
    (st : KiwiState) : Except KiwiError Unit × KiwiState :=
  match ffi with
  | some e => (Except.error e, st)
  | none => (Except.ok (), clear_inference_caches st)

/-- `Kiwi::set_option_f`; the `f32` value travels as its bit pattern. -/
def set_option_f (ffi : Option KiwiError) (_option : Int) (_value_bits : Nat)
    (st : KiwiState) : Except KiwiError Unit × KiwiState :=
  match ffi with
  | some e => (Except.error e, st)
  | none => (Except.ok (), clear_inference_caches st)

/-- `Kiwi::set_default_analyze_options` (infallible). -/
def set_default_analyze_options (options : AnalyzeOptions) (st : KiwiState) : KiwiState :=
  clear_inference_caches { st with default_analyze_options := options }

/-- `Kiwi::add_re_word`; `compiled` is the outcome of `Regex::new(pattern)`
(`Except.error msg` when the pattern does not compile). -/
def add_re_word (compiled : Except String Unit) (pattern tag : String)
    (st : KiwiState) : Except KiwiError Unit × KiwiState :=
  match compiled with
  | Except.error error =>
    (Except.error (KiwiError.invalidArgument
      ("invalid regex pattern for add_re_word: " ++ error)), st)
  | Except.ok _ =>
    (Except.ok (),
      clear_inference_caches
        { st with re_word_rules := st.re_word_rules ++ [{ pattern := pattern, tag := tag }] })

/-- `Kiwi::clear_re_words` (infallible). -/
def clear_re_words (st : KiwiState) : KiwiState :=
  clear_inference_caches { st with re_word_rules := [] }

/-- `Kiwi::tokenize_with_cache`.  `oracle` stands for
`analyze_result_with_overrides` (with no overrides) followed by
`first_tokens`; it receives the regex rules because the native path reads
them. -/
def tokenize_with_cache
    (oracle : String → AnalyzeOptions → List ReWordRule → Except KiwiError (List Token))
    (st : KiwiState) (text : String) (options : AnalyzeOptions) :
    Except KiwiError (List Token) × KiwiState :=
  let key := TokenizeCacheKey.from_options options
  match lookup_tokenize_cache text key st.tokenize_cache with
  | (some tokens, cache) => (Except.ok tokens, { st with tokenize_cache := cache })
  | (none, _) =>
    match oracle text options st.re_word_rules with
    | Except.error e => (Except.error e, st)
    | Except.ok tokens =>
      (Except.ok tokens,
        { st with tokenize_cache := insert_tokenize_cache text key tokens st.tokenize_cache })

/-- `Kiwi::analyze_with_cache`.  `oracle` stands for
`analyze_with_overrides` (blocklist and pretokenized arguments explicit). -/
def analyze_with_cache {β π : Type}
    (oracle : String → AnalyzeOptions → Option β → Option π → List ReWordRule →
      Except KiwiError (List AnalysisCandidate))
    (st : KiwiState) (text : String) (options : AnalyzeOptions) :
    Except KiwiError (List AnalysisCandidate) × KiwiState :=
  if options.top_n = 1 then
    let key := AnalyzeCacheKey.from_options options
    match lookup_analyze_cache text key st.analyze_cache with
    | (some candidates, cache) => (Except.ok candidates, { st with analyze_cache := cache })
    | (none, _) =>
      match oracle text options none none st.re_word_rules with
      | Except.error e => (Except.error e, st)
      | Except.ok candidates =>
        (Except.ok candidates,
          { st with analyze_cache := insert_analyze_cache text key candidates st.analyze_cache })
  else
    (oracle text options none none st.re_word_rules, st)

/-- `Kiwi::analyze_with_blocklist`: a direct override call; never touches the
caches. -/
def analyze_with_blocklist {β π : Type}
    (oracle : String → AnalyzeOptions → Option β → Option π → List ReWordRule →
      Except KiwiError (List AnalysisCandidate))
    (st : KiwiState) (text : String) (options : AnalyzeOptions) (blocklist : Option β) :
    Except KiwiError (List AnalysisCandidate) × KiwiState :=
  (oracle text options blocklist none st.re_word_rules, st)

/-- `Kiwi::tokenize_with_blocklist`. -/
def tokenize_with_blocklist {β π : Type}
    (oracle : String → AnalyzeOptions → Option β → Option π → List ReWordRule →
      Except KiwiError (List Token))
    (st : KiwiState) (text : String) (options : AnalyzeOptions) (blocklist : Option β) :
    Except KiwiError (List Token) × KiwiState :=
  (oracle text (options.with_top_n 1) blocklist none st.re_word_rules, st)

/-- `Kiwi::tokenize_with_blocklist_and_pretokenized`. -/
def tokenize_with_blocklist_and_pretokenized {β π : Type}
    (oracle : String → AnalyzeOptions → Option β → Option π → List ReWordRule →
      Except KiwiError (List Token))
    (st : KiwiState) (text : String) (options : AnalyzeOptions)
    (blocklist : Option β) (pretokenized : Option π) :
    Except KiwiError (List Token) × KiwiState :=
  (oracle text (options.with_top_n 1) blocklist pretokenized st.re_word_rules, st)

/-- `ends_with_ascii_word` from `runtime.rs`: the last non-whitespace
character, if any, is ASCII alphanumeric. -/
def ends_with_ascii_word (value : String) : Bool :=
  match value.data.reverse.find? (fun ch => !rust_is_whitespace ch) with
  | some ch => ch.isAlphanum
  | none => false

/-- First phase of `glue_with_options`' boundary loop: scan adjacent chunk
pairs (with running index), serving decisions from the glue-pair cache (a hit
promotes the entry, exactly as `lookup_glue_pair_cache` does) and collecting,
for each miss, the two candidate renderings (spaced at `2k`, unspaced at
`2k+1`) plus the boundary's index and pair. Returns the final pair cache, the
decision vector (`false` placeholders for misses, as the source's
`vec![false; join_count]`), the candidate batch and the missing boundaries. -/
def gluePairScan (cache : List GluePairScoreCacheEntry) :
    Nat → List (String × String) →
    List GluePairScoreCacheEntry × List Bool × List String × List (Nat × String × String)
  | _, [] => (cache, [], [], [])
  | i, (left, right) :: rest =>
    match lookup_glue_pair_cache left right cache with
    | (some insert_space, cache') =>
      let (c, ds, cands, miss) := gluePairScan cache' (i + 1) rest
      (c, insert_space :: ds, cands, miss)
    | (none, _) =>
      let (c, ds, cands, miss) := gluePairScan cache (i + 1) rest
      (c, false :: ds, (left ++ " " ++ right) :: (left ++ right) :: cands,
        (i, left, right) :: miss)

/-- Second phase of `glue_with_options`: for each missing boundary (in scan
order, with its batch offset), read the two scores (`NEG_INFINITY` when the
batch result is short), decide
`score_with_space >= score_without_space || ends_with_ascii_word left`, write
the decision into the vector and insert it into the glue-pair cache. -/
def glueApplyScores {σ : Type} (sge : σ → σ → Bool) (negInf : σ) (scores : List σ) :
    List (Nat × String × String) → Nat → List Bool → List GluePairScoreCacheEntry →
    List Bool × List GluePairScoreCacheEntry
  | [], _, ds, cache => (ds, cache)
  | (i, left, right) :: rest, offset, ds, cache =>
    let score_with_space := (scores.get? (offset * 2)).getD negInf
    let score_without_space := (scores.get? (offset * 2 + 1)).getD negInf
    let insert_space := sge score_with_space score_without_space || ends_with_ascii_word left
    glueApplyScores sge negInf scores rest (offset + 1) (ds.set i insert_space)
      (insert_glue_pair_cache left right insert_space cache)

/-- Final phase of `glue_with_options`: concatenate the chunks, inserting a
space — or a newline when that boundary's flag is set — wherever the decision
is true.  The decision vector has exactly one entry per boundary by
construction (the `[]` fallback mirrors an unreachable state). -/
def glueConcatGo (insert_new_lines : Option (List Bool)) :
    List String → List Bool → Nat → String
  | [], _, _ => ""
  | [last], _, _ => last
  | left :: rest, [], i => left ++ glueConcatGo insert_new_lines rest [] (i + 1)
  | left :: rest, d :: ds, i =>
    let sep :=
      if d then
        if ((insert_new_lines.bind (fun flags => flags.get? i)).getD false)
        then "\n" else " "
      else ""
    left ++ sep ++ glueConcatGo insert_new_lines rest ds (i + 1)

/-- `Kiwi::glue_with_options`.  `score_many` stands for
`score_many_via_native` applied to the candidate batch; scores live in the
arbitrary type `σ` with comparison `sge` and default `negInf`. -/
def glue_with_options {σ : Type} (sge : σ → σ → Bool) (negInf : σ)
    (score_many : List String → Except KiwiError (List σ))
    (st : KiwiState) (text_chunks : List String)
    (insert_new_lines : Option (List Bool)) (return_space_insertions : Bool) :
    Except KiwiError (String × Option (List Bool)) × KiwiState :=
  if text_chunks.isEmpty then
    (Except.ok ("", if return_space_insertions then some [] else none), st)
  else
    let chunks := text_chunks.map rust_trim
    let lengthBad :=
      match insert_new_lines with
      | some new_lines => new_lines.length != chunks.length - 1
      | none => false
    if lengthBad then
      (Except.error (KiwiError.invalidArgument
        ("insert_new_lines length must be " ++ toString (chunks.length - 1))), st)
    else
      match lookup_glue_cache chunks insert_new_lines st.glue_cache with
      | (some (cached_text, cached_insertions), cache) =>
        (Except.ok (cached_text,
          if return_space_insertions then some cached_insertions else none),
          { st with glue_cache := cache })
      | (none, _) =>
        let pairs := chunks.zip chunks.tail
        let (pairCache, ds0, candidates, missing) :=
          gluePairScan st.glue_pair_cache 0 pairs
        let afterScores :
            Except KiwiError (List Bool × List GluePairScoreCacheEntry) :=
          if missing.isEmpty then Except.ok (ds0, pairCache)
          else
            match score_many candidates with
            | Except.error e => Except.error e
            | Except.ok scores =>
              Except.ok (glueApplyScores sge negInf scores missing 0 ds0 pairCache)
        match afterScores with
        | Except.error e => (Except.error e, { st with glue_pair_cache := pairCache })
        | Except.ok (space_insertions, pairCache') =>
          let result := glueConcatGo insert_new_lines chunks space_insertions 0
          (Except.ok (result,
            if return_space_insertions then some space_insertions else none),
            { st with
              glue_pair_cache := pairCache'
              glue_cache :=
                insert_glue_cache chunks insert_new_lines result space_insertions
                  st.glue_cache })

/-- `ranges_overlap` from `runtime.rs`. -/
def ranges_overlap (a_begin a_end b_begin b_end : Nat) : Bool :=
  decide (a_begin < b_end) && decide (b_begin < a_end)

/-- `strip_all_whitespace` from `runtime.rs`. -/
def strip_all_whitespace (value : String) : String :=
  String.mk (value.data.filter (fun ch => !rust_is_whitespace ch))

/-- `build_char_to_byte_map`, at the character level: the byte offset of each
character becomes the character index itself (the map is strictly monotone,
so every slice through it is the same character sequence); the extra final
entry is the text length, as in the source. -/
def build_char_to_byte_map (text : List Char) : List Nat :=
  List.range (text.length + 1)

/-- `slice_char_range` from `runtime.rs`: clamp `begin`/`end` to
`map.len() - 1` with `end ≥ begin`, then slice.  The two indexings into `map`
and the final range slicing (which panic in Rust when out of bounds) are
modelled as `Option`; the safety claim proves they never fire. -/
def slice_char_range (text : List Char) (map : List Nat) (b e : Nat) :
    Option (List Char) :=
  let mx := map.length - 1
  let safe_begin := min b mx
  let safe_end := max (min e mx) safe_begin
  match map.get? safe_begin, map.get? safe_end with
  | some byte_begin, some byte_end =>
    if byte_begin ≤ byte_end ∧ byte_end ≤ text.length then
      some ((text.drop byte_begin).take (byte_end - byte_begin))
    else none
  | _, _ => none

/-- Character-list prefix test (kernel-reducible replacement for
`String.startsWith`). -/
def chars_starts_with : List Char → List Char → Bool
  | _, [] => true
  | [], _ :: _ => false
  | a :: as, b :: bs => a == b && chars_starts_with as bs

/-- Rust `str::starts_with`. -/
def str_starts_with (s p : String) : Bool := chars_starts_with s.data p.data

/-- `starts_with_any` from `runtime.rs`. -/
def starts_with_any (tag : String) (patterns : List String) : Bool :=
  patterns.any (fun p => str_starts_with tag p)

/-- `is_space_insertable_target` from `runtime.rs`. -/
def is_space_insertable_target (tag : String) : Bool :=
  str_starts_with tag "N" || str_starts_with tag "M" || str_starts_with tag "I" ||
    starts_with_any tag
      ["VV", "VA", "VX", "VCN", "XR", "XPN", "SW", "SL", "SH", "SN"]

/-- `is_space_insertable_target_strict` from `runtime.rs`. -/
def is_space_insertable_target_strict (tag : String) : Bool :=
  str_starts_with tag "M" || str_starts_with tag "I" ||
    starts_with_any tag
      ["NP", "NR", "NNG", "NNP", "VV", "VA", "VX", "VCN", "XR", "XPN", "SW", "SH"]

/-- `is_space_insertable_prev` from `runtime.rs`. -/
def is_space_insertable_prev (tag : String) : Bool :=
  let first := (tag.data.head?).getD (Char.ofNat 0)
  (!(first == 'S' || first == 'U' || first == 'W' || first == 'X')) ||
    str_starts_with tag "XR" || str_starts_with tag "XS" || str_starts_with tag "SE" ||
    str_starts_with tag "SH"

/-- `should_insert_space_between` from `runtime.rs`. -/
def should_insert_space_between (prev_tag tag form : String) : Bool :=
  if tag == "VX" && (form == "하" || form == "지") then false
  else
    (is_space_insertable_prev prev_tag && is_space_insertable_target tag) ||
      (prev_tag == "SN" && is_space_insertable_target_strict tag) ||
      (starts_with_any prev_tag ["SF", "SP", "SL"] &&
        is_space_insertable_target_strict tag)

/-- `should_strip_gap` from `runtime.rs`. -/
def should_strip_gap (prev_tag : Option String) (tag form : String) : Bool :=
  str_starts_with tag "E" || str_starts_with tag "J" || str_starts_with tag "XS" ||
    (tag == "VX" && (form == "하" || form == "지")) ||
    (prev_tag == some "SN" && tag == "NNB")

/-- The token loop of `reconstruct_spaced_text`: walks the tokens carrying the
output built so far, the last consumed character offset and the previous
token's tag; after the loop, any raw text beyond the last token is appended.
Each `slice_char_range` is `Option`-checked. -/
def reconstructGo (raw : List Char) (map : List Nat) (textLen : Nat) :
    List Token → String → Nat → Option String → Option String
  | [], out, last, _ =>
    if last < textLen then
      match slice_char_range raw map last textLen with
      | some tailChars => some (out ++ String.mk tailChars)
      | none => none
    else some out
  | token :: rest, out, last, prev_tag =>
    let start := min token.position textLen
    let stop := max (min (token.position + token.length) textLen) start
    let gapStep : Option (String × Nat) :=
      if last < start then
        match slice_char_range raw map last start with
        | some gapChars =>
          let gap_text :=
            if should_strip_gap prev_tag token.tag token.form
            then strip_all_whitespace (String.mk gapChars)
            else String.mk gapChars
          some ((if gap_text.isEmpty then out else out ++ gap_text), start)
        | none => none
      else some (out, last)
    match gapStep with
    | none => none
    | some (out1, last1) =>
      let out2 :=
        match prev_tag with
        | some prev =>
          if should_insert_space_between prev token.tag token.form
              && !out1.isEmpty
              && !(((out1.data.getLast?).map rust_is_whitespace).getD false)
          then out1 ++ " " else out1
        | none => out1
      let tokenStep : Option String :=
        if last1 < stop then
          let nounNoOverlap :=
            match rest.head? with
            | none => true
            | some next => decide (stop ≤ next.position)
          if str_starts_with token.tag "NN" && nounNoOverlap then
            some (if token.form.isEmpty then out2 else out2 ++ token.form)
          else
            match slice_char_range raw map last1 stop with
            | some sliceChars =>
              let token_text := strip_all_whitespace (String.mk sliceChars)
              some (if token_text.isEmpty then out2 else out2 ++ token_text)
            | none => none
        else some out2
      match tokenStep with
      | none => none
      | some out3 => reconstructGo raw map textLen rest out3 stop (some token.tag)

/-- `reconstruct_spaced_text` from `runtime.rs`. -/
def reconstruct_spaced_text (raw : String) (tokens : List Token) : Option String :=
  if tokens.isEmpty then some raw
  else
    let chars := raw.data
    let map := build_char_to_byte_map chars
    let textLen := map.length - 1
    reconstructGo chars map textLen tokens "" 0 none

/-- `token_end` from `runtime.rs` (`position + length`; `Nat` addition
models the saturating `usize` addition). -/
def token_end (token : Token) : Nat := token.position + token.length

/-- The `BTreeMap<usize, Vec<Token>>` grouping step of
`build_sentences_from_tokens`: one insertion into an association list sorted
by `sent_position`, appending to the group when the key exists. -/
def insertGrouped : List (Nat × List Token) → Token → List (Nat × List Token)
  | [], t => [(t.sent_position, [t])]
  | (k, g) :: rest, t =>
    if t.sent_position < k then (t.sent_position, [t]) :: (k, g) :: rest
    else if t.sent_position = k then (k, g ++ [t]) :: rest
    else (k, g) :: insertGrouped rest t

def group_by_sent_position (tokens : List Token) : List (Nat × List Token) :=
  tokens.foldl insertGrouped []

/-- `Iterator::min` on the list of values. -/
def list_min : List Nat → Option Nat
  | [] => none
  | x :: xs =>
    some (match list_min xs with
      | none => x
      | some m => min x m)

/-- `Iterator::max` on the list of values. -/
def list_max : List Nat → Option Nat
  | [] => none
  | x :: xs =>
    some (match list_max xs with
      | none => x
      | some m => max x m)

/-- `Sentence` (`types.rs`); the source's `end` field is called `stop`
(`end` is a Lean keyword). -/
structure Sentence where
  text : String
  start : Nat
  stop : Nat
  tokens : Option (List Token)
  subs : Option (List Sentence)
deriving Repr

/-- The state-machine loop of `build_sub_sentences_from_tokens`: runs of
equal non-zero `sub_sent_position` become sub-sentences; a `0` token closes
any open run without starting one. -/
def buildSubSentencesGo (text : List Char) (map : List Nat) (return_tokens : Bool) :
    List Token → Nat → Nat → Nat → List Token → Option (List Sentence)
  | [], current_sub_id, current_start, current_end, current_tokens =>
    if current_sub_id ≠ 0 then
      match slice_char_range text map current_start current_end with
      | some sliceChars =>
        some [{ text := String.mk sliceChars, start := current_start,
                stop := current_end,
                tokens := if return_tokens then some current_tokens else none,
                subs := none }]
      | none => none
    else some []
  | token :: rest, current_sub_id, current_start, current_end, current_tokens =>
    let sub_id := token.sub_sent_position
    if sub_id = 0 then
      if current_sub_id ≠ 0 then
        match slice_char_range text map current_start current_end with
        | some sliceChars =>
          match buildSubSentencesGo text map return_tokens rest 0 current_start
              current_end [] with
          | some out =>
            some ({ text := String.mk sliceChars, start := current_start,
                    stop := current_end,
                    tokens := if return_tokens then some current_tokens else none,
                    subs := none } :: out)
          | none => none
        | none => none
      else buildSubSentencesGo text map return_tokens rest current_sub_id
        current_start current_end current_tokens
    else if current_sub_id ≠ sub_id then
      if current_sub_id ≠ 0 then
        match slice_char_range text map current_start current_end with
        | some sliceChars =>
          match buildSubSentencesGo text map return_tokens rest sub_id
              token.position (token_end token) [token] with
          | some out =>
            some ({ text := String.mk sliceChars, start := current_start,
                    stop := current_end,
                    tokens := if return_tokens then some current_tokens else none,
                    subs := none } :: out)
          | none => none
        | none => none
      else
        buildSubSentencesGo text map return_tokens rest sub_id token.position
          (token_end token) (current_tokens ++ [token])
    else
      buildSubSentencesGo text map return_tokens rest current_sub_id current_start
        (token_end token) (current_tokens ++ [token])

/-- `build_sub_sentences_from_tokens` from `runtime.rs`. -/
def build_sub_sentences_from_tokens (text : List Char) (map : List Nat)
    (sentence_tokens : List Token) (return_tokens : Bool) : Option (List Sentence) :=
  buildSubSentencesGo text map return_tokens sentence_tokens 0 0 0 []

/-- Per-group sentence construction of `build_sentences_from_tokens`. -/
def sentencesFromGroups (text : List Char) (map : List Nat)
    (return_tokens return_sub_sents : Bool) :
    List (Nat × List Token) → Option (List Sentence)
  | [] => some []
  | (_, g) :: rest =>
    let start := (list_min (g.map (fun t => t.position))).getD 0
    let stop := (list_max (g.map token_end)).getD start
    match slice_char_range text map start stop with
    | none => none
    | some sliceChars =>
      let subsStep : Option (Option (List Sentence)) :=
        if return_sub_sents then
          match build_sub_sentences_from_tokens text map g return_tokens with
          | some subs => some (some subs)
          | none => none
        else some none
      match subsStep with
      | none => none
      | some subs =>
        match sentencesFromGroups text map return_tokens return_sub_sents rest with
        | none => none
        | some sents =>
          some ({ text := String.mk sliceChars, start := start, stop := stop,
                  tokens := if return_tokens then some g else none,
                  subs := subs } :: sents)

/-- `build_sentences_from_tokens` from `runtime.rs`. -/
def build_sentences_from_tokens (text : String) (tokens : List Token)
    (return_tokens return_sub_sents : Bool) : Option (List Sentence) :=
  if tokens.isEmpty then some []
  else
    let chars := text.data
    let map := build_char_to_byte_map chars
    sentencesFromGroups chars map return_tokens return_sub_sents
      (group_by_sent_position tokens)


/-! ## Concrete inputs used by witnesses and counterexamples -/

/-- Default-like options with everything zeroed; concrete witness input. -/
def witnessOptions : AnalyzeOptions :=
  { top_n := 1, match_options := 0, open_ending := false, allowed_dialects := 0,
    dialect_cost_bits := 0 }

def witnessToken : Token :=
  { form := "가", tag := "NNG", position := 0, length := 1, sent_position := 0,
    sub_sent_position := 0 }

def witnessJoinEntryA : JoinCacheEntry :=
  { lm_search := false, morphs := [("가", "NNG")], joiner := 0 }

def witnessJoinEntryB : JoinCacheEntry :=
  { lm_search := false, morphs := [("나", "NNG")], joiner := 1 }

/-- A state whose join cache is non-empty, so that the join-cache frame
condition of the mutators is exercised non-vacuously. -/
def witnessState : KiwiState :=
  { tokenize_cache :=
      [{ key := TokenizeCacheKey.from_options witnessOptions,
         fingerprint := TextFingerprint.of "가", text := "가",
         tokens := [witnessToken] }]
    analyze_cache := []
    split_cache := []
    glue_cache := []
    glue_pair_cache := []
    join_cache := [witnessJoinEntryA, witnessJoinEntryB]
    default_analyze_options := witnessOptions
    re_word_rules := [] }

/-- A state with all caches empty. -/
def emptyKiwiState : KiwiState :=
  { tokenize_cache := [], analyze_cache := [], split_cache := [], glue_cache := [],
    glue_pair_cache := [], join_cache := [],
    default_analyze_options := witnessOptions, re_word_rules := [] }

/-- The token list of the C5 spacing scenario. -/
def c5_tokens : List Token :=
  [ { form := "사과", tag := "NNG", position := 0, length := 2, sent_position := 0,
      sub_sent_position := 0 },
    { form := "를", tag := "JKO", position := 3, length := 1, sent_position := 0,
      sub_sent_position := 0 },
    { form := "먹었다", tag := "VV", position := 4, length := 3, sent_position := 0,
      sub_sent_position := 0 } ]

/-- Tokens of two sentences whose min/max spans overlap: sentence 0 covers
characters `[0,5)` while sentence 1 covers `[1,2)`. -/
def overlap_token_a : Token :=
  { form := "x", tag := "NNG", position := 0, length := 5, sent_position := 0,
    sub_sent_position := 0 }

def overlap_token_b : Token :=
  { form := "y", tag := "NNG", position := 1, length := 1, sent_position := 1,
    sub_sent_position := 0 }

/-- A full (16-entry) join cache, for exercising join eviction. -/
def witnessJoinCacheFull : List JoinCacheEntry :=
  (List.range JOIN_CACHE_CAPACITY).map
    (fun n => { lm_search := false, morphs := [(toString n, "NNG")], joiner := n })

/-- Two well-ordered one-character tokens in consecutive sentences. -/
def ordered_token_a : Token :=
  { form := "a", tag := "NNG", position := 0, length := 1, sent_position := 0,
    sub_sent_position := 0 }

def ordered_token_b : Token :=
  { form := "b", tag := "NNG", position := 1, length := 1, sent_position := 1,
    sub_sent_position := 0 }

/-- The sentences the segmenter builds for `"ab"` over the two ordered
tokens. -/
def ordered_sentence_a : Sentence :=
  { text := "a", start := 0, stop := 1, tokens := some [ordered_token_a],
    subs := none }

def ordered_sentence_b : Sentence :=
  { text := "b", start := 1, stop := 2, tokens := some [ordered_token_b],
    subs := none }

/-- Insertion into a front-oriented cache keyed by `keyOf`: the shape every
one of the five text caches' `insert_*_cache` takes, since the dedup/lookup
predicate of an inserted entry holds exactly of the entries carrying the same
key tuple (options key, fingerprint and exact text). -/
def insertByKey {ε κ : Type} [DecidableEq κ] (keyOf : ε → κ) (cap : Nat)
    (e : ε) (c : List ε) : List ε :=
  cacheInsertFront cap (fun x => decide (keyOf x = keyOf e)) e c

/-- The match key of a join-cache entry: language-model-search flag plus the
morph sequence. -/
def joinKey (e : JoinCacheEntry) : Bool × List (String × String) :=
  (e.lm_search, e.morphs)

/-- The glue-pair cache invariant preserved by the scoring pass: every entry
whose left text ends with an ASCII alphanumeric character records the
decision `insert_space = true`. -/
def GluePairAsciiInv (cache : List GluePairScoreCacheEntry) : Prop :=
  ∀ e ∈ cache, ends_with_ascii_word e.left = true → e.insert_space = true

/-- Relation between a sentence-group and the `Sentence` built from it. -/
def SentenceOfGroup (rt : Bool) (kg : Nat × List Token) (s : Sentence) : Prop :=
  s.start = (list_min (kg.2.map (fun t => t.position))).getD 0 ∧
  s.stop = (list_max (kg.2.map token_end)).getD s.start ∧
  s.tokens = if rt then some kg.2 else none

/-- Invariant threaded through a run of fresh-key insertions: either the
probed key `k1` is gone from the cache, or its entry sits behind at least `b`
entries, all of which carry keys from the already-inserted set `P`. -/
def FrontEvictionInv {ε κ : Type} (keyOf : ε → κ) (k1 : κ) (P : List κ)
    (b : Nat) (c : List ε) : Prop :=
  k1 ∉ c.map keyOf ∨
    ∃ pre e1 post, c = pre ++ e1 :: post ∧ keyOf e1 = k1 ∧ b ≤ pre.length ∧
      ∀ x ∈ pre, keyOf x ∈ P

/-- Join-cache eviction invariant: either the probed key `k1` is absent, or
its (unique) entry has at least `b` entries behind it (towards the back). -/
def JoinEvictionInv (k1 : Bool × List (String × String)) (b : Nat)
    (c : List JoinCacheEntry) : Prop :=
  k1 ∉ c.map joinKey ∨
    ∃ pre e1 post, c = pre ++ e1 :: post ∧ joinKey e1 = k1 ∧ b ≤ post.length ∧
      k1 ∉ pre.map joinKey ∧ k1 ∉ post.map joinKey

/-! ## Generic facts about the cache operations -/

lemma position?_cons_true {α : Type} {p : α → Bool} {x : α} {xs : List α}
    (h : p x = true) : position? p (x :: xs) = some 0 := by
  simp [position?, h]

lemma position?_some {α : Type} {p : α → Bool} {c : List α} {i : Nat}
    (h : position? p c = some i) : ∃ e, c.get? i = some e ∧ p e = true := by
  induction c generalizing i with
  | nil => simp [position?] at h
  | cons x xs ih =>
    by_cases hx : p x
    · simp [position?, hx] at h
      subst h
      exact ⟨x, rfl, hx⟩
    · simp [position?, hx] at h
      obtain ⟨j, hj, hji⟩ := h
      obtain ⟨e, he, hpe⟩ := ih hj
      exact ⟨e, by simpa [← hji] using he, hpe⟩

lemma cacheLookupMTF_front {ε α : Type} {p : ε → Bool} {value : ε → α}
    {e : ε} {rest : List ε} (h : p e = true) :
    cacheLookupMTF p value (e :: rest) = (some (value e), e :: rest) := by
  simp [cacheLookupMTF, position?_cons_true h, List.eraseIdx]

lemma cacheLookupMTF_miss {ε α : Type} {p : ε → Bool} {value : ε → α}
    {c c' : List ε} (h : cacheLookupMTF p value c = (none, c')) : c' = c := by
  unfold cacheLookupMTF at h
  split at h
  · exact ((Prod.mk.injEq _ _ _ _).mp h).2.symm
  · split at h
    · exact ((Prod.mk.injEq _ _ _ _).mp h).2.symm
    · simp at h

lemma cacheLookupMTF_hit {ε α : Type} {p : ε → Bool} {value : ε → α}
    {c c' : List ε} {v : α} (h : cacheLookupMTF p value c = (some v, c')) :
    ∃ e, p e = true ∧ value e = v ∧ ∃ i, c' = e :: c.eraseIdx i := by
  unfold cacheLookupMTF at h
  split at h
  · simp at h
  · rename_i i hp
    split at h
    · simp at h
    · rename_i e hg
      obtain ⟨e', he', hpe'⟩ := position?_some hp
      have hee : e' = e := by rw [he'] at hg; exact Option.some.inj hg
      subst hee
      have h1 := ((Prod.mk.injEq _ _ _ _).mp h).1
      have h2 := ((Prod.mk.injEq _ _ _ _).mp h).2
      exact ⟨e', hpe', Option.some.inj h1, i, h2.symm⟩

lemma cacheLookupMTF_hit_again {ε α : Type} {p : ε → Bool} {value : ε → α}
    {c c' : List ε} {v : α} (h : cacheLookupMTF p value c = (some v, c')) :
    cacheLookupMTF p value c' = (some v, c') := by
  obtain ⟨e, hpe, hv, i, hc'⟩ := cacheLookupMTF_hit h
  subst hc'
  rw [cacheLookupMTF_front hpe, hv]

lemma cacheInsertFront_lookup {ε α : Type} (p : ε → Bool) (value : ε → α)
    (cap : Nat) (e : ε) (c : List ε) (h : p e = true) :
    cacheLookupMTF p value (cacheInsertFront cap p e c)
      = (some (value e), cacheInsertFront cap p e c) := by
  unfold cacheInsertFront
  exact cacheLookupMTF_front h

/-- The freshly built tokenize entry matches its own lookup key. -/
lemma tokenize_entry_matches_self (text : String) (key : TokenizeCacheKey)
    (tokens : List Token) :
    TokenizeCacheEntry.matches
      { key := key, fingerprint := TextFingerprint.of text, text := text,
        tokens := tokens } text key (TextFingerprint.of text) = true := by
  simp [TokenizeCacheEntry.matches]

lemma analyze_entry_matches_self (text : String) (key : AnalyzeCacheKey)
    (candidates : List AnalysisCandidate) :
    AnalyzeCacheEntry.matches
      { key := key, fingerprint := TextFingerprint.of text, text := text,
        candidates := candidates } text key (TextFingerprint.of text) = true := by
  simp [AnalyzeCacheEntry.matches]

/-- Shape of `clear_inference_caches`: the five inference caches are emptied,
everything else is preserved. -/
lemma clear_inference_caches_spec (st : KiwiState) :
    (clear_inference_caches st).tokenize_cache = [] ∧
    (clear_inference_caches st).analyze_cache = [] ∧
    (clear_inference_caches st).split_cache = [] ∧
    (clear_inference_caches st).glue_cache = [] ∧
    (clear_inference_caches st).glue_pair_cache = [] ∧
    (clear_inference_caches st).join_cache = st.join_cache := by
  simp [clear_inference_caches]

/-! ## C1 — configuration mutators clear the five inference caches and leave
the join cache untouched -/

/-- C1: after a successful call of any configuration mutator
(`set_global_config`, `set_option`, `set_option_f`,
`set_default_analyze_options`, `add_re_word`, `clear_re_words`), the
tokenize, analyze, split, glue and glue-pair caches are empty while the
contents of the join cache are exactly what they were before the call. -/
theorem config_mutators_clear_inference_caches
    {γ : Type} (ffi₁ ffi₂ ffi₃ : Option KiwiError) (config : γ)
    (opt val : Int) (optf : Int) (bits : Nat)
    (options : AnalyzeOptions) (compiled : Except String Unit)
    (pattern tag : String) (st : KiwiState) :
    (∀ out st', set_global_config ffi₁ config st = (Except.ok out, st') →
      st'.tokenize_cache = [] ∧ st'.analyze_cache = [] ∧ st'.split_cache = [] ∧
      st'.glue_cache = [] ∧ st'.glue_pair_cache = [] ∧
      st'.join_cache = st.join_cache) ∧
    (∀ out st', set_option' ffi₂ opt val st = (Except.ok out, st') →
      st'.tokenize_cache = [] ∧ st'.analyze_cache = [] ∧ st'.split_cache = [] ∧
      st'.glue_cache = [] ∧ st'.glue_pair_cache = [] ∧
      st'.join_cache = st.join_cache) ∧
    (∀ out st', set_option_f ffi₃ optf bits st = (Except.ok out, st') →
      st'.tokenize_cache = [] ∧ st'.analyze_cache = [] ∧ st'.split_cache = [] ∧
      st'.glue_cache = [] ∧ st'.glue_pair_cache = [] ∧
      st'.join_cache = st.join_cache) ∧
    ((set_default_analyze_options options st).tokenize_cache = [] ∧
      (set_default_analyze_options options st).analyze_cache = [] ∧
      (set_default_analyze_options options st).split_cache = [] ∧
      (set_default_analyze_options options st).glue_cache = [] ∧
      (set_default_analyze_options options st).glue_pair_cache = [] ∧
      (set_default_analyze_options options st).join_cache = st.join_cache) ∧
    (∀ out st', add_re_word compiled pattern tag st = (Except.ok out, st') →
      st'.tokenize_cache = [] ∧ st'.analyze_cache = [] ∧ st'.split_cache = [] ∧
      st'.glue_cache = [] ∧ st'.glue_pair_cache = [] ∧
      st'.join_cache = st.join_cache) ∧
    ((clear_re_words st).tokenize_cache = [] ∧
      (clear_re_words st).analyze_cache = [] ∧
      (clear_re_words st).split_cache = [] ∧
      (clear_re_words st).glue_cache = [] ∧
      (clear_re_words st).glue_pair_cache = [] ∧
      (clear_re_words st).join_cache = st.join_cache) := by
  refine ⟨?_, ?_, ?_, ?_, ?_, ?_⟩
  · intro out st' h
    rcases ffi₁ with _ | e
    · have hst : clear_inference_caches st = st' :=
        congrArg Prod.snd h
      rw [← hst]
      exact clear_inference_caches_spec st
    · exact absurd (congrArg Prod.fst h) (by simp [set_global_config])
  · intro out st' h
    rcases ffi₂ with _ | e
    · have hst : clear_inference_caches st = st' := congrArg Prod.snd h
      rw [← hst]
      exact clear_inference_caches_spec st
    · exact absurd (congrArg Prod.fst h) (by simp [set_option'])
  · intro out st' h
    rcases ffi₃ with _ | e
    · have hst : clear_inference_caches st = st' := congrArg Prod.snd h
      rw [← hst]
      exact clear_inference_caches_spec st
    · exact absurd (congrArg Prod.fst h) (by simp [set_option_f])
  · simp [set_default_analyze_options, clear_inference_caches]
  · intro out st' h
    rcases compiled with e | u
    · exact absurd (congrArg Prod.fst h) (by simp [add_re_word])
    · have hst :
          clear_inference_caches
            { st with re_word_rules :=
                st.re_word_rules ++ [{ pattern := pattern, tag := tag }] } = st' :=
        congrArg Prod.snd h
      rw [← hst]
      exact clear_inference_caches_spec _
  · exact clear_inference_caches_spec _

/-- Witness for C1 at a concrete state with a non-empty join cache. -/
theorem config_mutators_clear_inference_caches_witness :
    (clear_inference_caches witnessState).tokenize_cache = [] ∧
    (clear_inference_caches witnessState).join_cache = witnessState.join_cache ∧
    witnessState.join_cache ≠ [] := by
  obtain ⟨h, -⟩ := config_mutators_clear_inference_caches
    none none none () 0 0 0 0 witnessOptions (Except.ok ()) "" ""
    witnessState
  obtain ⟨h1, _, _, _, _, h6⟩ := h () (clear_inference_caches witnessState) rfl
  exact ⟨h1, h6, by simp [witnessState]⟩

/-! ## C4 — cache transparency: calling the same cached operation twice with
equal inputs yields identical results -/

lemma tokenize_with_cache_idem
    (oracle : String → AnalyzeOptions → List ReWordRule → Except KiwiError (List Token))
    (st : KiwiState) (text : String) (options : AnalyzeOptions) :
    (tokenize_with_cache oracle
        (tokenize_with_cache oracle st text options).2 text options).1
      = (tokenize_with_cache oracle st text options).1 := by
  rcases h : lookup_tokenize_cache text (TokenizeCacheKey.from_options options)
      st.tokenize_cache with ⟨o, c⟩
  unfold lookup_tokenize_cache at h
  rcases o with _ | tokens
  · rcases ho : oracle text options st.re_word_rules with e | tokens
    · simp [tokenize_with_cache, lookup_tokenize_cache, h, ho]
    · have hself :
          (fun e => TokenizeCacheEntry.matches e text
            (TokenizeCacheKey.from_options options) (TextFingerprint.of text))
            { key := TokenizeCacheKey.from_options options,
              fingerprint := TextFingerprint.of text, text := text,
              tokens := tokens } = true :=
        tokenize_entry_matches_self text (TokenizeCacheKey.from_options options) tokens
      have hins := cacheInsertFront_lookup
        (fun e => TokenizeCacheEntry.matches e text
          (TokenizeCacheKey.from_options options) (TextFingerprint.of text))
        (fun e => e.tokens) TOKENIZE_CACHE_CAPACITY
        { key := TokenizeCacheKey.from_options options,
          fingerprint := TextFingerprint.of text, text := text,
          tokens := tokens } st.tokenize_cache hself
      simp [tokenize_with_cache, lookup_tokenize_cache, insert_tokenize_cache, h, ho, hins]
  · have h2 := cacheLookupMTF_hit_again h
    simp [tokenize_with_cache, lookup_tokenize_cache, h, h2]

lemma analyze_with_cache_idem {β π : Type}
    (oracle : String → AnalyzeOptions → Option β → Option π → List ReWordRule →
      Except KiwiError (List AnalysisCandidate))
    (st : KiwiState) (text : String) (options : AnalyzeOptions) :
    (analyze_with_cache oracle
        (analyze_with_cache oracle st text options).2 text options).1
      = (analyze_with_cache oracle st text options).1 := by
  by_cases htop : options.top_n = 1
  · rcases h : lookup_analyze_cache text (AnalyzeCacheKey.from_options options)
        st.analyze_cache with ⟨o, c⟩
    unfold lookup_analyze_cache at h
    rcases o with _ | candidates
    · rcases ho : oracle text options none none st.re_word_rules with e | candidates
      · simp [analyze_with_cache, lookup_analyze_cache, htop, h, ho]
      · have hself :
            (fun e => AnalyzeCacheEntry.matches e text
              (AnalyzeCacheKey.from_options options) (TextFingerprint.of text))
              { key := AnalyzeCacheKey.from_options options,
                fingerprint := TextFingerprint.of text, text := text,
                candidates := candidates } = true :=
          analyze_entry_matches_self text (AnalyzeCacheKey.from_options options) candidates
        have hins := cacheInsertFront_lookup
          (fun e => AnalyzeCacheEntry.matches e text
            (AnalyzeCacheKey.from_options options) (TextFingerprint.of text))
          (fun e => e.candidates) ANALYZE_CACHE_CAPACITY
          { key := AnalyzeCacheKey.from_options options,
            fingerprint := TextFingerprint.of text, text := text,
            candidates := candidates } st.analyze_cache hself
        simp [analyze_with_cache, lookup_analyze_cache, insert_analyze_cache,
          htop, h, ho, hins]
    · have h2 := cacheLookupMTF_hit_again h
      simp [analyze_with_cache, lookup_analyze_cache, htop, h, h2]
  · simp [analyze_with_cache, htop]

/-- C4: for every oracle (the deterministic native analyzer), state, text and
options, a second `tokenize_with_options`-style call (`tokenize_with_cache`)
or `analyze_with_options`-style call (`analyze_with_cache`) with equal text
and equal options returns exactly the result of the first call, whether or
not it is served from the cache. -/
theorem cached_ops_transparent {β π : Type}
    (tokOracle : String → AnalyzeOptions → List ReWordRule →
      Except KiwiError (List Token))
    (anOracle : String → AnalyzeOptions → Option β → Option π → List ReWordRule →
      Except KiwiError (List AnalysisCandidate))
    (st : KiwiState) (text : String) (options : AnalyzeOptions) :
    (tokenize_with_cache tokOracle
        (tokenize_with_cache tokOracle st text options).2 text options).1
      = (tokenize_with_cache tokOracle st text options).1 ∧
    (analyze_with_cache anOracle
        (analyze_with_cache anOracle st text options).2 text options).1
      = (analyze_with_cache anOracle st text options).1 :=
  ⟨tokenize_with_cache_idem tokOracle st text options,
    analyze_with_cache_idem anOracle st text options⟩

/-! ## C9 — override paths never consult or mutate the tokenize/analyze
caches -/

/-- C9: `analyze`/`tokenize` calls that pass a blocklist or pretokenized
hints, and analyze calls with `top_n ≠ 1`, leave the whole state (hence the
tokenize and analyze caches) unchanged and produce a result that does not
depend on the caches' contents (two states differing only in their caches
give the same result). -/
theorem override_paths_bypass_caches {β π : Type}
    (tokOracle : String → AnalyzeOptions → Option β → Option π → List ReWordRule →
      Except KiwiError (List Token))
    (anOracle : String → AnalyzeOptions → Option β → Option π → List ReWordRule →
      Except KiwiError (List AnalysisCandidate))
    (st st' : KiwiState) (text : String) (options : AnalyzeOptions)
    (blocklist : Option β) (pretokenized : Option π)
    (hrules : st'.re_word_rules = st.re_word_rules) :
    (options.top_n ≠ 1 →
      (analyze_with_cache anOracle st text options).2 = st ∧
      (analyze_with_cache anOracle st' text options).1
        = (analyze_with_cache anOracle st text options).1) ∧
    ((analyze_with_blocklist anOracle st text options blocklist).2 = st ∧
      (analyze_with_blocklist anOracle st' text options blocklist).1
        = (analyze_with_blocklist anOracle st text options blocklist).1) ∧
    ((tokenize_with_blocklist tokOracle st text options blocklist).2 = st ∧
      (tokenize_with_blocklist tokOracle st' text options blocklist).1
        = (tokenize_with_blocklist tokOracle st text options blocklist).1) ∧
    ((tokenize_with_blocklist_and_pretokenized tokOracle st text options blocklist
        pretokenized).2 = st ∧
      (tokenize_with_blocklist_and_pretokenized tokOracle st' text options blocklist
          pretokenized).1
        = (tokenize_with_blocklist_and_pretokenized tokOracle st text options blocklist
            pretokenized).1) := by
  refine ⟨fun htop => ?_, ?_, ?_, ?_⟩
  · simp [analyze_with_cache, htop, hrules]
  · simp [analyze_with_blocklist, hrules]
  · simp [tokenize_with_blocklist, hrules]
  · simp [tokenize_with_blocklist_and_pretokenized, hrules]

/-- Witness for C9: concrete instantiation with `top_n = 2 ≠ 1` and two
states differing in their tokenize caches. -/
theorem override_paths_bypass_caches_witness :
    (analyze_with_cache
        ((fun _ _ _ _ _ => Except.ok []) :
          String → AnalyzeOptions → Option Unit → Option Unit →
            List ReWordRule → Except KiwiError (List AnalysisCandidate))
        witnessState "가"
        (witnessOptions.with_top_n 2)).2 = witnessState := by
  have h := override_paths_bypass_caches
    ((fun _ _ _ _ _ => Except.ok []) :
      String → AnalyzeOptions → Option Unit → Option Unit →
        List ReWordRule → Except KiwiError (List Token))
    ((fun _ _ _ _ _ => Except.ok []) :
      String → AnalyzeOptions → Option Unit → Option Unit →
        List ReWordRule → Except KiwiError (List AnalysisCandidate))
    witnessState emptyKiwiState "가" (witnessOptions.with_top_n 2) none none
    (by simp [witnessState, emptyKiwiState])
  exact (h.1 (by simp [witnessOptions, AnalyzeOptions.with_top_n])).1

/-! ## C2 — recency policy of the six bounded caches.

The five text caches (tokenize, analyze, split, glue, glue-pair) are
front-oriented: a hit moves the matched entry to the front, a new entry is
inserted at the front, and eviction at capacity drops the back entry.  The
join cache implements the same least-recently-used policy with the deque
mirrored: a hit moves the matched entry to the *back*, a new entry is
inserted at the *back*, and at capacity the *front* entry is dropped. -/

/-- C2 (amended): recency/eviction policy of all six caches, with the join
cache's mirrored orientation stated explicitly. -/
theorem bounded_recency_cache_policy :
    (∀ (ε α : Type) (p : ε → Bool) (value : ε → α) (c : List ε) (i : Nat) (e : ε),
      position? p c = some i → c.get? i = some e →
      cacheLookupMTF p value c = (some (value e), e :: c.eraseIdx i)) ∧
    (∀ (ε : Type) (cap : Nat) (p : ε → Bool) (e : ε) (c : List ε),
      ∃ rest, cacheInsertFront cap p e c = e :: rest) ∧
    (∀ (ε : Type) (cap : Nat) (p : ε → Bool) (e : ε) (c : List ε),
      position? p c = none → cap ≤ c.length →
      cacheInsertFront cap p e c = e :: c.dropLast) ∧
    (∀ (morphs : List (String × String)) (lm : Bool) (c : List JoinCacheEntry)
        (i : Nat) (e : JoinCacheEntry),
      position? (fun x => x.matches morphs lm) c = some i → c.get? i = some e →
      lookup_join_cache morphs lm c = (some e, c.eraseIdx i ++ [e])) ∧
    (∀ (e : JoinCacheEntry) (c : List JoinCacheEntry),
      JOIN_CACHE_CAPACITY ≤ c.length →
      insert_join_cache e c = c.drop 1 ++ [e]) ∧
    (∀ (e : JoinCacheEntry) (c : List JoinCacheEntry),
      c.length < JOIN_CACHE_CAPACITY →
      insert_join_cache e c = c ++ [e]) := by
  refine ⟨?_, ?_, ?_, ?_, ?_, ?_⟩
  · intro ε α p value c i e hp he
    rw [List.get?_eq_getElem?] at he
    simp [cacheLookupMTF, hp, he]
  · intro ε cap p e c
    exact ⟨_, rfl⟩
  · intro ε cap p e c hp hlen
    simp [cacheInsertFront, hp, hlen]
  · intro morphs lm c i e hp he
    rw [List.get?_eq_getElem?] at he
    simp [lookup_join_cache, hp, he]
  · intro e c hlen
    simp [insert_join_cache, hlen]
  · intro e c hlen
    simp [insert_join_cache, Nat.not_le.mpr hlen]

/-- Witness for C2 at concrete inputs: a hit on the second entry of a
three-entry front-oriented cache, a front insert with eviction at capacity
2, a join-cache hit landing at the back, and a join insert at capacity
dropping the front. -/
theorem bounded_recency_cache_policy_witness :
    cacheLookupMTF (fun x => x == 2) (fun x => x) [1, 2, 3] = (some 2, [2, 1, 3]) ∧
    cacheInsertFront 3 (fun x => x == 9) 9 [1, 2, 3] = [9, 1, 2] ∧
    lookup_join_cache [("나", "NNG")] false [witnessJoinEntryA, witnessJoinEntryB]
      = (some witnessJoinEntryB, [witnessJoinEntryA, witnessJoinEntryB]) ∧
    insert_join_cache witnessJoinEntryA witnessJoinCacheFull
      = witnessJoinCacheFull.drop 1 ++ [witnessJoinEntryA] := by
  refine ⟨?_, ?_, ?_, ?_⟩
  · rw [bounded_recency_cache_policy.1 Nat Nat (fun x => x == 2) (fun x => x)
      [1, 2, 3] 1 2 (by decide) (by decide)]
    decide
  · rw [bounded_recency_cache_policy.2.2.1 Nat 3 (fun x => x == 9) 9 [1, 2, 3]
      (by decide) (by decide)]
    decide
  · rw [bounded_recency_cache_policy.2.2.2.1 [("나", "NNG")] false
      [witnessJoinEntryA, witnessJoinEntryB] 1 witnessJoinEntryB
      (by decide) (by decide)]
    decide
  · exact bounded_recency_cache_policy.2.2.2.2.1 witnessJoinEntryA
      witnessJoinCacheFull (by decide)

/-- Counterexample to C2 as stated: on the join cache, a lookup hit does
*not* move the matched entry to the front — at a two-entry join cache the hit
on the back entry leaves the deque unchanged, front entry first. -/
theorem join_cache_hit_not_front_cex :
    (lookup_join_cache [("나", "NNG")] false
        [witnessJoinEntryA, witnessJoinEntryB]).1 = some witnessJoinEntryB ∧
    (lookup_join_cache [("나", "NNG")] false
        [witnessJoinEntryA, witnessJoinEntryB]).2
      = [witnessJoinEntryA, witnessJoinEntryB] ∧
    witnessJoinEntryA ≠ witnessJoinEntryB := by
  decide

/-! ## C3 — insert_new_lines length validation -/

lemma cacheLookupMTF_none {ε α : Type} {p : ε → Bool} (value : ε → α)
    {c : List ε} (h : position? p c = none) :
    cacheLookupMTF p value c = (none, c) := by
  simp [cacheLookupMTF, h]

/-- C3 (amended): for every *non-empty* chunk list, a supplied
`insert_new_lines` vector whose length differs from `chunks.len() - 1` makes
`glue_with_options` return the invalid-argument error (with the state
untouched); the empty chunk list instead short-circuits to the empty-string
result before the length check runs, for any flag vector. -/
theorem glue_with_options_flag_length_error {σ : Type} (sge : σ → σ → Bool)
    (negInf : σ) (score_many : List String → Except KiwiError (List σ))
    (st : KiwiState) (text_chunks : List String) (new_lines : List Bool)
    (return_space_insertions : Bool)
    (hne : text_chunks ≠ []) (hlen : new_lines.length ≠ text_chunks.length - 1) :
    glue_with_options sge negInf score_many st text_chunks (some new_lines)
        return_space_insertions
      = (Except.error (KiwiError.invalidArgument
          ("insert_new_lines length must be " ++ toString (text_chunks.length - 1))), st) := by
  have hempty : text_chunks.isEmpty = false := by
    cases text_chunks with
    | nil => exact absurd rfl hne
    | cons x xs => rfl
  have hbad : (new_lines.length != text_chunks.length - 1) = true :=
    bne_iff_ne.mpr hlen
  simp only [glue_with_options, hempty, Bool.false_eq_true, if_false,
    List.length_map, hbad, if_true]

/-- Witness for C3's amended theorem: two chunks with two newline flags. -/
theorem glue_with_options_flag_length_error_witness :
    glue_with_options ((fun a b => decide (b ≤ a)) : Int → Int → Bool) 0
        (fun _ => Except.ok []) emptyKiwiState ["a", "b"] (some [true, false]) false
      = (Except.error
          (KiwiError.invalidArgument "insert_new_lines length must be 1"),
        emptyKiwiState) := by
  rw [glue_with_options_flag_length_error ((fun a b => decide (b ≤ a)) : Int → Int → Bool) 0
    (fun _ => Except.ok []) emptyKiwiState ["a", "b"] [true, false] false
    (by decide) (by decide)]
  rfl

/-- Counterexample to C3 as stated: with the *empty* chunk list and a
one-element flag vector (length `1 ≠ 0`), `glue_with_options` does not
return an invalid-argument error — the empty-list early return yields
`Ok("")` before the length check. -/
theorem glue_with_options_empty_chunks_cex :
    (glue_with_options ((fun a b => decide (b ≤ a)) : Int → Int → Bool) 0
        (fun _ => Except.ok []) emptyKiwiState [] (some [true]) false).1
      = Except.ok ("", none) := by
  rfl

/-! ## C6 — ASCII-alphanumeric override in the glue boundary decision -/

lemma mem_cacheInsertFront {ε : Type} {cap : Nat} {p : ε → Bool} {e x : ε}
    {c : List ε} (hx : x ∈ cacheInsertFront cap p e c) : x = e ∨ x ∈ c := by
  unfold cacheInsertFront at hx
  rcases List.mem_cons.mp hx with h | h
  · exact Or.inl h
  · right
    rcases hp : position? p c with _ | i <;> rw [hp] at h
    · by_cases hcap : cap ≤ c.length
      · rw [if_pos hcap] at h
        exact List.dropLast_subset c h
      · rw [if_neg hcap] at h
        exact h
    · by_cases hcap : cap ≤ (c.eraseIdx i).length
      · rw [if_pos hcap] at h
        exact List.eraseIdx_subset c i (List.dropLast_subset _ h)
      · rw [if_neg hcap] at h
        exact List.eraseIdx_subset c i h


lemma glueApplyScores_preserves_ascii_inv {σ : Type} (sge : σ → σ → Bool)
    (negInf : σ) (scores : List σ) :
    ∀ (missing : List (Nat × String × String)) (offset : Nat) (ds : List Bool)
      (cache : List GluePairScoreCacheEntry), GluePairAsciiInv cache →
      GluePairAsciiInv (glueApplyScores sge negInf scores missing offset ds cache).2 := by
  intro missing
  induction missing with
  | nil => intro offset ds cache hinv; exact hinv
  | cons head rest ih =>
    intro offset ds cache hinv
    obtain ⟨i, left, right⟩ := head
    refine ih _ _ _ ?_
    intro x hx hxleft
    rcases mem_cacheInsertFront hx with h | h
    · subst h
      simp only []
      by_cases hend : ends_with_ascii_word left = true
      · simp [hend]
      · simp at hxleft ⊢
        exact Or.inr hxleft
    · exact hinv x h hxleft

/-- C6: the boundary decision for a pair whose left chunk ends with an ASCII
alphanumeric character is to insert a separator, independently of the
language-model scores: (a) the scoring pass only ever records
`insert_space = true` for such pairs, for every score assignment; and (b)
concretely, `glue(["abc", "123"])` returns `"abc 123"` for *every* score
list the native scorer may produce, whenever the pair and the whole request
are not already cached. -/
theorem glue_ascii_word_forces_separator {σ : Type} (sge : σ → σ → Bool)
    (negInf : σ) (scores : List σ) (st : KiwiState)
    (missing : List (Nat × String × String)) (offset : Nat) (ds : List Bool)
    (cache : List GluePairScoreCacheEntry) (hinv : GluePairAsciiInv cache)
    (hpair : position? (fun e => e.matches "abc" "123") st.glue_pair_cache = none)
    (hglue : position?
        (fun e => e.matches ["abc", "123"] none (glue_fingerprint ["abc", "123"] none))
        st.glue_cache = none) :
    GluePairAsciiInv (glueApplyScores sge negInf scores missing offset ds cache).2 ∧
    (glue_with_options sge negInf (fun _ => Except.ok scores) st ["abc", "123"]
        none false).1
      = Except.ok ("abc 123", none) := by
  constructor
  · exact glueApplyScores_preserves_ascii_inv sge negInf scores missing offset ds
      cache hinv
  · have hlook := cacheLookupMTF_none
      (fun e => (e.glued_text, e.space_insertions)) hglue
    have hpairlook := cacheLookupMTF_none
      (fun e => e.insert_space) hpair
    have hscan :
        gluePairScan st.glue_pair_cache 0 [("abc", "123")]
          = (st.glue_pair_cache, [false], ["abc 123", "abc123"],
              [(0, "abc", "123")]) := by
      unfold gluePairScan
      rw [show lookup_glue_pair_cache "abc" "123" st.glue_pair_cache
          = (none, st.glue_pair_cache) from hpairlook]
      rfl
    have hdecision :
        (sge ((scores.get? 0).getD negInf) ((scores.get? 1).getD negInf) ||
            ends_with_ascii_word "abc") = true := by
      rw [show ends_with_ascii_word "abc" = true from rfl, Bool.or_true]
    simp only [glue_with_options, lookup_glue_cache]
    rw [show List.map rust_trim ["abc", "123"] = ["abc", "123"] from rfl]
    rw [hlook]
    rw [show (["abc", "123"] : List String).zip (["abc", "123"] : List String).tail
        = [("abc", "123")] from rfl]
    rw [hscan]
    simp only [glueApplyScores, List.isEmpty_cons, Nat.mul_zero, Nat.zero_mul,
      Nat.zero_add, hdecision]
    rfl

/-- Witness for C6: integer scores `[-5, 3]` make the spaced rendering score
*worse* than the unspaced one, yet the ASCII override still inserts the
separator. -/
theorem glue_ascii_word_forces_separator_witness :
    (glue_with_options ((fun a b => decide (b ≤ a)) : Int → Int → Bool) (-1000)
        (fun _ => Except.ok [(-5 : Int), 3]) emptyKiwiState ["abc", "123"]
        none false).1
      = Except.ok ("abc 123", none) :=
  (glue_ascii_word_forces_separator (fun a b => decide (b ≤ a)) (-1000)
    [(-5 : Int), 3] emptyKiwiState [] 0 [] []
    (fun _ he => nomatch he) rfl rfl).2

/-! ## C5 — the spacing scenario -/

/-- C5: for the raw text `"사과 를먹었다"` and the tokens
`(사과,NNG,0,2)`, `(를,JKO,3,1)`, `(먹었다,VV,4,3)`, the spacing
reconstructor returns exactly `"사과를 먹었다"`: the whitespace before the
particle token is stripped and a single space is inserted before the
predicate token. -/
theorem reconstruct_spaced_text_scenario :
    reconstruct_spaced_text "사과 를먹었다" c5_tokens = some "사과를 먹었다" := by
  decide

/-! ## C10 — all character-range slices are clamped; the reconstructor and
the segmenter always return normally -/

lemma slice_char_range_canonical (text : List Char) (b e : Nat) :
    slice_char_range text (build_char_to_byte_map text) b e
      = some ((text.drop (min b text.length)).take
          (max (min e text.length) (min b text.length) - min b text.length)) := by
  have hsb : min b text.length < text.length + 1 :=
    Nat.lt_succ_of_le (Nat.min_le_right _ _)
  have hse : max (min e text.length) (min b text.length) < text.length + 1 :=
    Nat.lt_succ_of_le (max_le (Nat.min_le_right _ _) (Nat.min_le_right _ _))
  unfold slice_char_range build_char_to_byte_map
  simp only [List.length_range, Nat.add_sub_cancel, List.get?_eq_getElem?,
    List.getElem?_range hsb, List.getElem?_range hse]
  rw [if_pos ⟨le_max_right _ _, Nat.lt_succ_iff.mp hse⟩]

lemma reconstructGo_isSome (raw : List Char) (textLen : Nat) :
    ∀ (tokens : List Token) (out : String) (last : Nat) (prev : Option String),
      (reconstructGo raw (build_char_to_byte_map raw) textLen tokens out last
          prev).isSome = true := by
  intro tokens
  induction tokens with
  | nil =>
    intro out last prev
    unfold reconstructGo
    split
    · rw [slice_char_range_canonical]
      rfl
    · rfl
  | cons t rest ih =>
    intro out last prev
    unfold reconstructGo
    simp only [slice_char_range_canonical]
    split
    · rename_i heq
      split at heq <;> simp at heq
    · rename_i out1 last1 heq1
      split
      · rename_i heq2
        split at heq2
        · split at heq2 <;> simp at heq2
        · simp at heq2
      · apply ih

lemma buildSubSentencesGo_isSome (text : List Char) (return_tokens : Bool) :
    ∀ (tokens : List Token) (cid cs ce : Nat) (cur : List Token),
      (buildSubSentencesGo text (build_char_to_byte_map text) return_tokens tokens
          cid cs ce cur).isSome = true := by
  intro tokens
  induction tokens with
  | nil =>
    intro cid cs ce cur
    unfold buildSubSentencesGo
    split
    · rw [slice_char_range_canonical]
      rfl
    · rfl
  | cons t rest ih =>
    intro cid cs ce cur
    unfold buildSubSentencesGo
    simp only [slice_char_range_canonical]
    split
    · split
      · rcases hrec : buildSubSentencesGo text (build_char_to_byte_map text)
            return_tokens rest 0 cs ce [] with _ | v
        · have hsome := ih 0 cs ce []
          rw [hrec] at hsome
          simp at hsome
        · simp [hrec]
      · apply ih
    · split
      · split
        · rcases hrec : buildSubSentencesGo text (build_char_to_byte_map text)
              return_tokens rest t.sub_sent_position t.position (token_end t)
              [t] with _ | v
          · have hsome := ih t.sub_sent_position t.position (token_end t) [t]
            rw [hrec] at hsome
            simp at hsome
          · simp [hrec]
        · apply ih
      · apply ih

lemma sentencesFromGroups_isSome (text : List Char)
    (return_tokens return_sub_sents : Bool) :
    ∀ (groups : List (Nat × List Token)),
      (sentencesFromGroups text (build_char_to_byte_map text) return_tokens
          return_sub_sents groups).isSome = true := by
  intro groups
  induction groups with
  | nil => rfl
  | cons g rest ih =>
    obtain ⟨k, tokens⟩ := g
    unfold sentencesFromGroups
    simp only [slice_char_range_canonical]
    have hsubs :
        (if return_sub_sents = true then
          match build_sub_sentences_from_tokens text (build_char_to_byte_map text)
              tokens return_tokens with
          | some subs => some (some subs)
          | none => none
        else some none).isSome = true := by
      split
      · rcases hrec : build_sub_sentences_from_tokens text
            (build_char_to_byte_map text) tokens return_tokens with _ | v
        · have hsome := buildSubSentencesGo_isSome text return_tokens tokens 0 0 0 []
          rw [show buildSubSentencesGo text (build_char_to_byte_map text)
              return_tokens tokens 0 0 0 []
              = build_sub_sentences_from_tokens text (build_char_to_byte_map text)
                  tokens return_tokens from rfl, hrec] at hsome
          simp at hsome
        · simp [hrec]
      · rfl
    rcases hs : (if return_sub_sents = true then
        match build_sub_sentences_from_tokens text (build_char_to_byte_map text)
            tokens return_tokens with
        | some subs => some (some subs)
        | none => none
      else some none) with _ | subs
    · rw [hs] at hsubs
      simp at hsubs
    · rw [hs]
      rcases hrest : sentencesFromGroups text (build_char_to_byte_map text)
          return_tokens return_sub_sents rest with _ | sents
      · rw [hrest] at ih
        simp at ih
      · simp [hrest]

/-- C10: for every raw text and every token list — including tokens whose
`position` or `position + length` exceed the text's character count or are
mutually inconsistent — `reconstruct_spaced_text` and
`build_sentences_from_tokens` return normally (`some`): every character-range
slice is clamped to `[0, character count]` with the end at least the start,
so none of the modelled panics (out-of-bounds indexing or invalid range
slicing) can fire. -/
theorem reconstruction_never_panics :
    (∀ (text : List Char) (b e : Nat), ∃ lo hi, lo ≤ hi ∧ hi ≤ text.length ∧
      slice_char_range text (build_char_to_byte_map text) b e
        = some ((text.drop lo).take (hi - lo))) ∧
    (∀ (raw : String) (tokens : List Token),
      (reconstruct_spaced_text raw tokens).isSome = true) ∧
    (∀ (text : String) (tokens : List Token) (return_tokens return_sub_sents : Bool),
      (build_sentences_from_tokens text tokens return_tokens
          return_sub_sents).isSome = true) := by
  refine ⟨?_, ?_, ?_⟩
  · intro text b e
    exact ⟨min b text.length, max (min e text.length) (min b text.length),
      le_max_right _ _,
      max_le (Nat.min_le_right _ _) (Nat.min_le_right _ _),
      slice_char_range_canonical text b e⟩
  · intro raw tokens
    unfold reconstruct_spaced_text
    split
    · rfl
    · exact reconstructGo_isSome raw.data _ tokens "" 0 none
  · intro text tokens return_tokens return_sub_sents
    unfold build_sentences_from_tokens
    split
    · rfl
    · exact sentencesFromGroups_isSome text.data return_tokens return_sub_sents
        (group_by_sent_position tokens)

/-! ## C7 — segmenter span coverage and ordering -/

lemma list_min_spec {l : List Nat} (hne : l ≠ []) :
    ∃ m, list_min l = some m ∧ m ∈ l ∧ ∀ x ∈ l, m ≤ x := by
  induction l with
  | nil => exact absurd rfl hne
  | cons y ys ih =>
    rcases hys : ys with _ | ⟨z, zs⟩
    · exact ⟨y, by simp [list_min], by simp, by simp⟩
    · rw [← hys]
      have hne' : ys ≠ [] := by rw [hys]; simp
      obtain ⟨m, hm, hmem, hle⟩ := ih hne'
      refine ⟨min y m, by simp [list_min, hm], ?_, ?_⟩
      · rcases min_choice y m with heq | heq
        · rw [heq]; exact List.mem_cons_self y ys
        · rw [heq]; exact List.mem_cons_of_mem y hmem
      · intro x hx
        rcases List.mem_cons.mp hx with h | h
        · subst h; exact Nat.min_le_left _ _
        · exact le_trans (Nat.min_le_right _ _) (hle x h)

lemma list_max_spec {l : List Nat} (hne : l ≠ []) :
    ∃ m, list_max l = some m ∧ m ∈ l ∧ ∀ x ∈ l, x ≤ m := by
  induction l with
  | nil => exact absurd rfl hne
  | cons y ys ih =>
    rcases hys : ys with _ | ⟨z, zs⟩
    · exact ⟨y, by simp [list_max], by simp, by simp⟩
    · rw [← hys]
      have hne' : ys ≠ [] := by rw [hys]; simp
      obtain ⟨m, hm, hmem, hle⟩ := ih hne'
      refine ⟨max y m, by simp [list_max, hm], ?_, ?_⟩
      · rcases max_choice y m with heq | heq
        · rw [heq]; exact List.mem_cons_self y ys
        · rw [heq]; exact List.mem_cons_of_mem y hmem
      · intro x hx
        rcases List.mem_cons.mp hx with h | h
        · subst h; exact Nat.le_max_left _ _
        · exact le_trans (hle x h) (Nat.le_max_right _ _)

lemma mem_insertGrouped {acc : List (Nat × List Token)} {t : Token}
    {kg : Nat × List Token} (h : kg ∈ insertGrouped acc t) :
    (kg.1 = t.sent_position ∧ kg.2 = [t]) ∨
    (∃ g, (kg.1, g) ∈ acc ∧
      (kg.2 = g ∨ (kg.2 = g ++ [t] ∧ kg.1 = t.sent_position))) := by
  induction acc with
  | nil =>
    simp [insertGrouped] at h
    subst h
    exact Or.inl ⟨rfl, rfl⟩
  | cons hd rest ih =>
    obtain ⟨k, g⟩ := hd
    unfold insertGrouped at h
    split at h
    · rcases List.mem_cons.mp h with h' | h'
      · subst h'
        exact Or.inl ⟨rfl, rfl⟩
      · rcases List.mem_cons.mp h' with h'' | h''
        · subst h''
          exact Or.inr ⟨g, List.mem_cons_self _ _, Or.inl rfl⟩
        · exact Or.inr ⟨kg.2, by
            rcases h'' with h''
            exact ⟨List.mem_cons_of_mem _ (by simpa using h''), Or.inl rfl⟩⟩
    · split at h
      · rcases List.mem_cons.mp h with h' | h'
        · subst h'
          rename_i hnlt hkeq
          exact Or.inr ⟨g, List.mem_cons_self _ _, Or.inr ⟨rfl, hkeq.symm⟩⟩
        · exact Or.inr ⟨kg.2, List.mem_cons_of_mem _ (by simpa using h'), Or.inl rfl⟩
      · rcases List.mem_cons.mp h with h' | h'
        · subst h'
          exact Or.inr ⟨g, List.mem_cons_self _ _, Or.inl rfl⟩
        · rcases ih h' with h'' | ⟨g', hg', hcase⟩
          · exact Or.inl h''
          · exact Or.inr ⟨g', List.mem_cons_of_mem _ hg', hcase⟩

lemma insertGrouped_pairwise {acc : List (Nat × List Token)} (t : Token)
    (h : List.Pairwise (fun a b => a.1 < b.1) acc) :
    List.Pairwise (fun a b => a.1 < b.1) (insertGrouped acc t) := by
  induction acc with
  | nil => simp [insertGrouped]
  | cons hd rest ih =>
    obtain ⟨k, g⟩ := hd
    rw [List.pairwise_cons] at h
    obtain ⟨hlt, hrest⟩ := h
    unfold insertGrouped
    split
    · rename_i hk
      refine List.Pairwise.cons ?_ (List.Pairwise.cons hlt hrest)
      intro b hb
      rcases List.mem_cons.mp hb with h' | h'
      · subst h'; exact hk
      · exact lt_trans hk (hlt b h')
    · split
      · rename_i hnlt hk
        exact List.Pairwise.cons hlt hrest
      · rename_i hnlt hne
        have hk : k < t.sent_position :=
          Nat.lt_of_le_of_ne (Nat.le_of_not_lt hnlt) (fun h => hne h.symm)
      -- every key in the recursive insert is an old key of `rest` or `t`'s key
        refine List.Pairwise.cons ?_ (ih hrest)
        intro b hb
        rcases mem_insertGrouped hb with ⟨hb1, _⟩ | ⟨g', hg', _⟩
        · rw [hb1]; exact hk
        · exact hlt (b.1, g') hg'

/-- Everything `group_by_sent_position` guarantees: groups are non-empty,
every token in a group has that group's key and comes from the input, and
the keys are strictly increasing. -/
lemma group_by_sent_position_spec (tokens : List Token) :
    (∀ kg ∈ group_by_sent_position tokens, kg.2 ≠ []) ∧
    (∀ kg ∈ group_by_sent_position tokens, ∀ u ∈ kg.2,
      u.sent_position = kg.1 ∧ u ∈ tokens) ∧
    List.Pairwise (fun a b => a.1 < b.1) (group_by_sent_position tokens) := by
  have main : ∀ (ts : List Token) (acc : List (Nat × List Token))
      (src : List Token),
      (∀ u ∈ ts, u ∈ src) →
      (∀ kg ∈ acc, kg.2 ≠ []) →
      (∀ kg ∈ acc, ∀ u ∈ kg.2, u.sent_position = kg.1 ∧ u ∈ src) →
      List.Pairwise (fun a b => a.1 < b.1) acc →
      (∀ kg ∈ ts.foldl insertGrouped acc, kg.2 ≠ []) ∧
      (∀ kg ∈ ts.foldl insertGrouped acc, ∀ u ∈ kg.2,
        u.sent_position = kg.1 ∧ u ∈ src) ∧
      List.Pairwise (fun a b => a.1 < b.1) (ts.foldl insertGrouped acc) := by
    intro ts
    induction ts with
    | nil =>
      intro acc src hsrc hne hmem hpw
      exact ⟨hne, hmem, hpw⟩
    | cons t rest ih =>
      intro acc src hsrc hne hmem hpw
      rw [List.foldl_cons]
      refine ih (insertGrouped acc t) src
        (fun u hu => hsrc u (List.mem_cons_of_mem t hu)) ?_ ?_
        (insertGrouped_pairwise t hpw)
      · intro kg hkg
        rcases mem_insertGrouped hkg with ⟨_, h2⟩ | ⟨g', hg', hcase⟩
        · rw [h2]; simp
        · rcases hcase with h2 | ⟨h2, _⟩
          · rw [h2]; exact hne (kg.1, g') hg'
          · rw [h2]; simp
      · intro kg hkg u hu
        rcases mem_insertGrouped hkg with ⟨h1, h2⟩ | ⟨g', hg', hcase⟩
        · rw [h2] at hu
          rcases List.mem_singleton.mp hu with h'
          subst h'
          exact ⟨h1.symm, hsrc u (List.mem_cons_self _ _)⟩
        · rcases hcase with h2 | ⟨h2, h1⟩
          · rw [h2] at hu
            exact hmem (kg.1, g') hg' u hu
          · rw [h2] at hu
            rcases List.mem_append.mp hu with h' | h'
            · exact hmem (kg.1, g') hg' u h'
            · rcases List.mem_singleton.mp h' with h''
              subst h''
              exact ⟨h1.symm, hsrc u (List.mem_cons_self _ _)⟩
  exact main tokens [] tokens (fun u hu => hu) (by simp) (by simp) List.Pairwise.nil


lemma sentencesFromGroups_spans (text : List Char) (rt rs : Bool) :
    ∀ (groups : List (Nat × List Token)) (sents : List Sentence),
      sentencesFromGroups text (build_char_to_byte_map text) rt rs groups
        = some sents →
      List.Forall₂ (SentenceOfGroup rt) groups sents := by
  intro groups
  induction groups with
  | nil =>
    intro sents h
    unfold sentencesFromGroups at h
    rcases Option.some.inj h with h'
    rw [← h']
    exact List.Forall₂.nil
  | cons kg rest ih =>
    intro sents h
    obtain ⟨k, g⟩ := kg
    unfold sentencesFromGroups at h
    simp only [slice_char_range_canonical] at h
    rcases hsub : (if rs = true then
        match build_sub_sentences_from_tokens text (build_char_to_byte_map text)
            g rt with
        | some subs => some (some subs)
        | none => none
      else some none) with _ | subs
    · rw [hsub] at h
      simp at h
    · rw [hsub] at h
      rcases hrest : sentencesFromGroups text (build_char_to_byte_map text) rt rs
          rest with _ | sents'
      · rw [hrest] at h
        simp at h
      · rw [hrest] at h
        rcases Option.some.inj h with h'
        rw [← h']
        exact List.Forall₂.cons ⟨rfl, rfl, rfl⟩ (ih sents' hrest)

lemma forall₂_mem_right {α β : Type} {R : α → β → Prop} :
    ∀ {l : List α} {l' : List β}, List.Forall₂ R l l' →
      ∀ b ∈ l', ∃ a ∈ l, R a b := by
  intro l l' h
  induction h with
  | nil => intro b hb; exact absurd hb (List.not_mem_nil b)
  | cons hr hrest ih =>
    intro b hb
    rcases List.mem_cons.mp hb with h' | h'
    · subst h'
      exact ⟨_, List.mem_cons_self _ _, hr⟩
    · obtain ⟨a, ha, har⟩ := ih b h'
      exact ⟨a, List.mem_cons_of_mem _ ha, har⟩

lemma pairwise_of_forall₂ {α β : Type} {R : α → β → Prop} {Q : α → α → Prop}
    {Q' : β → β → Prop}
    (himp : ∀ a b a' b', R a a' → R b b' → Q a b → Q' a' b') :
    ∀ {l : List α} {l' : List β}, List.Forall₂ R l l' →
      List.Pairwise Q l → List.Pairwise Q' l' := by
  intro l l' h
  induction h with
  | nil => intro _; exact List.Pairwise.nil
  | cons hr hrest ih =>
    intro hpw
    rw [List.pairwise_cons] at hpw
    obtain ⟨hhead, htail⟩ := hpw
    refine List.Pairwise.cons ?_ (ih htail)
    intro b' hb'
    obtain ⟨b, hb, hbr⟩ := forall₂_mem_right hrest b' hb'
    exact himp _ b _ b' hr hbr (hhead b hb)

/-- C7 (amended): every sentence's `[start, stop)` span covers the spans of
all tokens assigned to it, for *any* token list; the sentences are emitted in
strictly increasing `sent_position` order of their groups, and their spans
are sorted and non-overlapping *provided* the token list is span-ordered
across sentences (every token of a lower `sent_position` ends at or before
the start of every token of a higher one) — without that premise, min/max
group spans can overlap. -/
theorem segmenter_span_coverage (text : String) (tokens : List Token)
    (return_sub_sents : Bool) (sents : List Sentence)
    (h : build_sentences_from_tokens text tokens true return_sub_sents
        = some sents) :
    (∀ s ∈ sents, ∀ t ∈ s.tokens.getD [],
      s.start ≤ t.position ∧ token_end t ≤ s.stop) ∧
    ((∀ t ∈ tokens, ∀ u ∈ tokens, t.sent_position < u.sent_position →
        token_end t ≤ u.position) →
      List.Pairwise (fun a b => a.stop ≤ b.start) sents) := by
  unfold build_sentences_from_tokens at h
  split at h
  · rcases Option.some.inj h with h'
    rw [← h']
    exact ⟨fun s hs => absurd hs (List.not_mem_nil s), fun _ => List.Pairwise.nil⟩
  · have hf := sentencesFromGroups_spans text.data true return_sub_sents
      (group_by_sent_position tokens) sents h
    obtain ⟨hne, hmem, hpw⟩ := group_by_sent_position_spec tokens
    constructor
    · intro s hs t ht
      obtain ⟨kg, hkg, hr⟩ := forall₂_mem_right hf s hs
      obtain ⟨hstart, hstop, htoks⟩ := hr
      rw [htoks] at ht
      simp only [if_true] at ht
      have htg : t ∈ kg.2 := by simpa using ht
      have hgne : kg.2 ≠ [] := hne kg hkg
      have hmapne : kg.2.map (fun t => t.position) ≠ [] := by
        simpa [List.map_eq_nil] using hgne
      have hmapne' : kg.2.map token_end ≠ [] := by
        simpa [List.map_eq_nil] using hgne
      obtain ⟨m, hm, -, hmle⟩ := list_min_spec hmapne
      obtain ⟨M, hM, -, hMge⟩ := list_max_spec hmapne'
      constructor
      · rw [hstart, hm]
        exact hmle t.position (List.mem_map.mpr ⟨t, htg, rfl⟩)
      · rw [hstop, hM]
        exact hMge (token_end t) (List.mem_map.mpr ⟨t, htg, rfl⟩)
    · intro hordered
      have hpwQ : List.Pairwise
          (fun kg kg' => kg.2 ≠ [] ∧ kg'.2 ≠ [] ∧
            ∀ t ∈ kg.2, ∀ u ∈ kg'.2, token_end t ≤ u.position)
          (group_by_sent_position tokens) := by
        refine List.Pairwise.imp_of_mem ?_ hpw
        intro a b ha hb hab
        refine ⟨hne a ha, hne b hb, ?_⟩
        intro t ht u hu
        obtain ⟨hta, htmem⟩ := hmem a ha t ht
        obtain ⟨hub, humem⟩ := hmem b hb u hu
        exact hordered t htmem u humem (by rw [hta, hub]; exact hab)
      refine pairwise_of_forall₂ ?_ hf hpwQ
      intro a b a' b' hra hrb hq
      obtain ⟨hane, hbne, hle⟩ := hq
      obtain ⟨-, hstopa, -⟩ := hra
      obtain ⟨hstartb, -, -⟩ := hrb
      have hmapne : a.2.map token_end ≠ [] := by
        simpa [List.map_eq_nil] using hane
      have hmapne' : b.2.map (fun t => t.position) ≠ [] := by
        simpa [List.map_eq_nil] using hbne
      obtain ⟨M, hM, hMmem, -⟩ := list_max_spec hmapne
      obtain ⟨m, hm, hmmem, -⟩ := list_min_spec hmapne'
      rw [hstopa, hM, hstartb, hm]
      simp only [Option.getD_some]
      obtain ⟨t0, ht0, ht0e⟩ := List.mem_map.mp hMmem
      obtain ⟨u0, hu0, hu0e⟩ := List.mem_map.mp hmmem
      rw [← ht0e, ← hu0e]
      exact hle t0 ht0 u0 hu0

/-- Counterexample to C7 as stated: for tokens `(sent 0, [0,5))` and
`(sent 1, [1,2))` over `"abcde"`, the two returned sentence spans are
`[0,5)` and `[1,2)`, which overlap (and are not sorted). -/
theorem segmenter_spans_overlap_cex :
    ((build_sentences_from_tokens "abcde" [overlap_token_a, overlap_token_b]
          true false).map
        (fun sents => sents.map (fun s => (s.start, s.stop))))
      = some [(0, 5), (1, 2)] ∧
    ranges_overlap 0 5 1 2 = true := by
  decide

/-- Witness for C7 at a concrete, well-ordered token list over `"ab"`. -/
theorem segmenter_span_coverage_witness :
    (ordered_sentence_a.start ≤ ordered_token_a.position ∧
      token_end ordered_token_a ≤ ordered_sentence_a.stop) ∧
    List.Pairwise (fun a b => a.stop ≤ b.start)
      [ordered_sentence_a, ordered_sentence_b] := by
  have h : build_sentences_from_tokens "ab" [ordered_token_a, ordered_token_b]
      true false = some [ordered_sentence_a, ordered_sentence_b] := rfl
  have main := segmenter_span_coverage "ab" [ordered_token_a, ordered_token_b]
    false [ordered_sentence_a, ordered_sentence_b] h
  constructor
  · exact main.1 ordered_sentence_a (List.mem_cons_self _ _) ordered_token_a
      (List.mem_cons_self _ _)
  · exact main.2 (by decide)

/-! ## C8 — inserting `capacity + 1` distinct keys evicts the first -/

lemma position?_eq_none {α : Type} {p : α → Bool} {c : List α}
    (h : ∀ x ∈ c, p x = false) : position? p c = none := by
  induction c with
  | nil => rfl
  | cons x xs ih =>
    simp [position?, h x (List.mem_cons_self x xs),
      ih (fun y hy => h y (List.mem_cons_of_mem x hy))]

lemma dedup_filter {ε κ : Type} [DecidableEq κ] (keyOf : ε → κ) (q : κ) :
    ∀ (c : List ε), (c.map keyOf).Nodup →
      (match position? (fun x => decide (keyOf x = q)) c with
       | some i => c.eraseIdx i
       | none => c) = c.filter (fun x => !(decide (keyOf x = q))) := by
  intro c
  induction c with
  | nil => intro _; rfl
  | cons x xs ih =>
    intro hnd
    rw [List.map_cons, List.nodup_cons] at hnd
    obtain ⟨hx, hxs⟩ := hnd
    by_cases hq : keyOf x = q
    · have hfx : xs.filter (fun y => !(decide (keyOf y = q))) = xs := by
        rw [List.filter_eq_self]
        intro a ha
        have hne : keyOf a ≠ q := by
          intro hh
          exact hx (List.mem_map.mpr ⟨a, ha, by rw [hh, hq]⟩)
        simp [hne]
      simp [position?, hq, List.filter_cons, hfx]
    · rcases hp : position? (fun y => decide (keyOf y = q)) xs with _ | i
      · have hfiltered := ih hxs
        rw [hp] at hfiltered
        simp [position?, hq, hp, List.filter_cons, ← hfiltered]
      · have hfiltered := ih hxs
        rw [hp] at hfiltered
        simp [position?, hq, hp, List.filter_cons, List.eraseIdx_cons_succ,
          ← hfiltered]

lemma insertByKey_closed {ε κ : Type} [DecidableEq κ] (keyOf : ε → κ)
    (cap : Nat) (e : ε) (c : List ε) (hnd : (c.map keyOf).Nodup) :
    insertByKey keyOf cap e c =
      e :: (if cap ≤ (c.filter (fun x => !(decide (keyOf x = keyOf e)))).length
        then (c.filter (fun x => !(decide (keyOf x = keyOf e)))).dropLast
        else c.filter (fun x => !(decide (keyOf x = keyOf e)))) := by
  simp only [insertByKey, cacheInsertFront]
  rw [dedup_filter keyOf (keyOf e) c hnd]


lemma insertByKey_basic {ε κ : Type} [DecidableEq κ] {keyOf : ε → κ}
    {cap : Nat} (e : ε) {c : List ε} (hcap : 1 ≤ cap)
    (hnd : (c.map keyOf).Nodup) (hlen : c.length ≤ cap) :
    ((insertByKey keyOf cap e c).map keyOf).Nodup ∧
    (insertByKey keyOf cap e c).length ≤ cap := by
  rw [insertByKey_closed keyOf cap e c hnd]
  have hdsub : (c.filter (fun x => !(decide (keyOf x = keyOf e)))).Sublist c :=
    List.filter_sublist c
  have hdnd : ((c.filter (fun x => !(decide (keyOf x = keyOf e)))).map keyOf).Nodup :=
    List.Nodup.sublist (hdsub.map keyOf) hnd
  have hbsub :
      (if cap ≤ (c.filter (fun x => !(decide (keyOf x = keyOf e)))).length
        then (c.filter (fun x => !(decide (keyOf x = keyOf e)))).dropLast
        else c.filter (fun x => !(decide (keyOf x = keyOf e)))).Sublist
        (c.filter (fun x => !(decide (keyOf x = keyOf e)))) := by
    split
    · exact List.dropLast_sublist _
    · exact List.Sublist.refl _
  constructor
  · rw [List.map_cons, List.nodup_cons]
    constructor
    · intro hmem
      obtain ⟨x, hx, hxk⟩ := List.mem_map.mp hmem
      have hxd := hbsub.subset hx
      have := List.of_mem_filter hxd
      simp at this
      exact this hxk
    · exact List.Nodup.sublist (hbsub.map keyOf) hdnd
  · rw [List.length_cons]
    split
    · rename_i hge
      rw [List.length_dropLast]
      have h1 : 1 ≤ (c.filter (fun x => !(decide (keyOf x = keyOf e)))).length :=
        le_trans hcap hge
      have h2 : (c.filter (fun x => !(decide (keyOf x = keyOf e)))).length ≤ c.length :=
        List.length_filter_le _ _
      omega
    · rename_i hlt
      have := Nat.lt_of_not_le hlt
      omega

lemma insertByKey_step {ε κ : Type} [DecidableEq κ] {keyOf : ε → κ}
    (cap : Nat) {k1 : κ} {P : List κ} {b : Nat} {c : List ε} {e : ε}
    (hnd : (c.map keyOf).Nodup)
    (hqk1 : keyOf e ≠ k1) (hqP : keyOf e ∉ P) (hk1P : k1 ∉ P)
    (hinv : FrontEvictionInv keyOf k1 P b c) :
    FrontEvictionInv keyOf k1 (P ++ [keyOf e]) (b + 1) (insertByKey keyOf cap e c) := by
  rw [insertByKey_closed keyOf cap e c hnd]
  rcases hinv with hout | ⟨pre, e1, post, hc, hk, hb, hpre⟩
  · left
    rw [List.map_cons, List.mem_cons]
    rintro (h | h)
    · exact hqk1 h.symm
    · obtain ⟨x, hx, hxk⟩ := List.mem_map.mp h
      have hxc : x ∈ c := by
        have hsub :
            (if cap ≤ (c.filter (fun y => !(decide (keyOf y = keyOf e)))).length
              then (c.filter (fun y => !(decide (keyOf y = keyOf e)))).dropLast
              else c.filter (fun y => !(decide (keyOf y = keyOf e)))).Sublist c := by
          split
          · exact List.Sublist.trans (List.dropLast_sublist _) (List.filter_sublist c)
          · exact List.filter_sublist c
        exact hsub.subset hx
      exact hout (List.mem_map.mpr ⟨x, hxc, hxk⟩)
  · have hpre_keep : pre.filter (fun y => !(decide (keyOf y = keyOf e))) = pre := by
      rw [List.filter_eq_self]
      intro a ha
      have : keyOf a ≠ keyOf e := by
        intro hh
        exact hqP (hh ▸ hpre a ha)
      simp [this]
    have he1_keep : (decide (keyOf e1 = keyOf e) : Bool) = false := by
      simp only [decide_eq_false_iff_not]
      intro hh
      exact hqk1 (hh.symm.trans hk)
    have hd : c.filter (fun y => !(decide (keyOf y = keyOf e)))
        = pre ++ e1 :: post.filter (fun y => !(decide (keyOf y = keyOf e))) := by
      rw [hc, List.filter_append, hpre_keep, List.filter_cons, he1_keep]
      simp
    rw [hd]
    have hk1pre : k1 ∉ pre.map keyOf := by
      intro hmem
      obtain ⟨x, hx, hxk⟩ := List.mem_map.mp hmem
      exact hk1P (hxk ▸ hpre x hx)
    rcases List.eq_nil_or_concat
        (post.filter (fun y => !(decide (keyOf y = keyOf e)))) with hpost | ⟨l, a, hpost⟩
    · rw [hpost]
      split
      · -- at capacity: the back entry is exactly the k1 entry; it is evicted
        rw [show (pre ++ [e1]).dropLast = pre from List.dropLast_concat]
        left
        rw [List.map_cons, List.mem_cons]
        rintro (h | h)
        · exact hqk1 h.symm
        · exact hk1pre h
      · -- below capacity: the k1 entry stays, one more entry in front of it
        right
        exact ⟨e :: pre, e1, [], rfl, hk, by simpa using Nat.succ_le_succ hb,
          by
            intro x hx
            rcases List.mem_cons.mp hx with h | h
            · rw [h]; simp
            · exact List.mem_append_left _ (hpre x h)⟩
    · rw [hpost, List.concat_eq_append]
      split
      · rw [show (pre ++ e1 :: (l ++ [a])).dropLast = pre ++ e1 :: l by
          rw [show pre ++ e1 :: (l ++ [a]) = (pre ++ e1 :: l) ++ [a] by simp,
            List.dropLast_concat]]
        right
        exact ⟨e :: pre, e1, l, rfl, hk, by simpa using Nat.succ_le_succ hb,
          by
            intro x hx
            rcases List.mem_cons.mp hx with h | h
            · rw [h]; simp
            · exact List.mem_append_left _ (hpre x h)⟩
      · right
        exact ⟨e :: pre, e1, l ++ [a], rfl, hk, by simpa using Nat.succ_le_succ hb,
          by
            intro x hx
            rcases List.mem_cons.mp hx with h | h
            · rw [h]; simp
            · exact List.mem_append_left _ (hpre x h)⟩

lemma front_eviction_fold {ε κ : Type} [DecidableEq κ] {keyOf : ε → κ}
    {cap : Nat} {k1 : κ} (hcap : 1 ≤ cap) :
    ∀ (ks : List ε) (c : List ε) (P : List κ) (b : Nat),
      (c.map keyOf).Nodup → c.length ≤ cap →
      (∀ e ∈ ks, keyOf e ≠ k1) → (ks.map keyOf).Nodup →
      (∀ e ∈ ks, keyOf e ∉ P) → k1 ∉ P →
      FrontEvictionInv keyOf k1 P b c →
      ((ks.foldl (fun acc e => insertByKey keyOf cap e acc) c).map keyOf).Nodup ∧
      (ks.foldl (fun acc e => insertByKey keyOf cap e acc) c).length ≤ cap ∧
      FrontEvictionInv keyOf k1 (P ++ ks.map keyOf) (b + ks.length)
        (ks.foldl (fun acc e => insertByKey keyOf cap e acc) c) := by
  intro ks
  induction ks with
  | nil =>
    intro c P b hnd hlen _ _ _ _ hinv
    simpa using ⟨hnd, hlen, hinv⟩
  | cons e ks' ih =>
    intro c P b hnd hlen hkk1 hknd hkP hk1P hinv
    rw [List.foldl_cons]
    have hstep := insertByKey_step cap hnd
      (hkk1 e (List.mem_cons_self _ _)) (hkP e (List.mem_cons_self _ _)) hk1P hinv
    obtain ⟨hnd', hlen'⟩ := insertByKey_basic e hcap hnd hlen
    rw [List.map_cons, List.nodup_cons] at hknd
    obtain ⟨hehd, hknd'⟩ := hknd
    have hmain := ih (insertByKey keyOf cap e c) (P ++ [keyOf e]) (b + 1)
      hnd' hlen'
      (fun x hx => hkk1 x (List.mem_cons_of_mem _ hx))
      hknd'
      (fun x hx => by
        rw [List.mem_append]
        rintro (h | h)
        · exact hkP x (List.mem_cons_of_mem _ hx) h
        · rcases List.mem_singleton.mp h with h'
          exact hehd (List.mem_map.mpr ⟨x, hx, h'⟩))
      (by
        rw [List.mem_append]
        rintro (h | h)
        · exact hk1P h
        · rcases List.mem_singleton.mp h with h'
          exact hkk1 e (List.mem_cons_self _ _) h'.symm)
      hstep
    refine ⟨hmain.1, hmain.2.1, ?_⟩
    have heq1 : P ++ [keyOf e] ++ ks'.map keyOf = P ++ (e :: ks').map keyOf := by
      simp
    have heq2 : b + 1 + ks'.length = b + (e :: ks').length := by
      simp [List.length_cons]
      omega
    rw [← heq1, ← heq2]
    exact hmain.2.2


lemma insert_join_cache_length {e : JoinCacheEntry} {c : List JoinCacheEntry}
    (hlen : c.length ≤ JOIN_CACHE_CAPACITY) :
    (insert_join_cache e c).length ≤ JOIN_CACHE_CAPACITY := by
  unfold insert_join_cache JOIN_CACHE_CAPACITY at *
  split
  · rename_i hge
    simp only [List.length_append, List.length_drop, List.length_singleton]
    omega
  · rename_i hlt
    simp only [List.length_append, List.length_singleton]
    omega

lemma insert_join_cache_step {k1 : Bool × List (String × String)} {b : Nat}
    {c : List JoinCacheEntry} {e : JoinCacheEntry}
    (hqk1 : joinKey e ≠ k1) (hinv : JoinEvictionInv k1 b c) :
    JoinEvictionInv k1 (b + 1) (insert_join_cache e c) := by
  unfold insert_join_cache
  rcases hinv with hout | ⟨pre, e1, post, hc, hk, hb, hpre, hpost⟩
  · left
    rw [List.map_append, List.mem_append]
    rintro (h | h)
    · refine hout ?_
      obtain ⟨x, hx, hxk⟩ := List.mem_map.mp h
      have hxc : x ∈ c := by
        revert hx
        split
        · exact fun hx => (List.drop_subset 1 c) hx
        · exact fun hx => hx
      exact List.mem_map.mpr ⟨x, hxc, hxk⟩
    · rcases List.mem_singleton.mp (by simpa using h) with h'
      exact hqk1 h'.symm
  · subst hc
    split
    · rename_i hge
      rcases pre with _ | ⟨p0, pre'⟩
      · -- the k1 entry is at the front and gets dropped
        left
        simp only [List.nil_append, List.drop_one, List.tail_cons]
        rw [List.map_append, List.mem_append]
        rintro (h | h)
        · exact hpost h
        · rcases List.mem_singleton.mp (by simpa using h) with h'
          exact hqk1 h'.symm
      · right
        refine ⟨pre', e1, post ++ [e], by simp [List.drop_one], hk, ?_, ?_, ?_⟩
        · simp only [List.length_append, List.length_singleton]
          omega
        · intro h
          exact hpre (by
            rw [List.map_cons]
            exact List.mem_cons_of_mem _ h)
        · rw [List.map_append, List.mem_append]
          rintro (h | h)
          · exact hpost h
          · rcases List.mem_singleton.mp (by simpa using h) with h'
            exact hqk1 h'.symm
    · right
      refine ⟨pre, e1, post ++ [e], by simp, hk, ?_, hpre, ?_⟩
      · simp only [List.length_append, List.length_singleton]
        omega
      · rw [List.map_append, List.mem_append]
        rintro (h | h)
        · exact hpost h
        · rcases List.mem_singleton.mp (by simpa using h) with h'
          exact hqk1 h'.symm

lemma join_eviction_fold {k1 : Bool × List (String × String)} :
    ∀ (ks : List JoinCacheEntry) (c : List JoinCacheEntry) (b : Nat),
      c.length ≤ JOIN_CACHE_CAPACITY →
      (∀ e ∈ ks, joinKey e ≠ k1) →
      JoinEvictionInv k1 b c →
      (ks.foldl (fun acc e => insert_join_cache e acc) c).length
          ≤ JOIN_CACHE_CAPACITY ∧
      JoinEvictionInv k1 (b + ks.length)
        (ks.foldl (fun acc e => insert_join_cache e acc) c) := by
  intro ks
  induction ks with
  | nil =>
    intro c b hlen _ hinv
    simpa using ⟨hlen, hinv⟩
  | cons e ks' ih =>
    intro c b hlen hkk1 hinv
    rw [List.foldl_cons]
    have hmain := ih (insert_join_cache e c) (b + 1)
      (insert_join_cache_length hlen)
      (fun x hx => hkk1 x (List.mem_cons_of_mem _ hx))
      (insert_join_cache_step (hkk1 e (List.mem_cons_self _ _)) hinv)
    refine ⟨hmain.1, ?_⟩
    have heq : b + 1 + ks'.length = b + (e :: ks').length := by
      simp [List.length_cons]
      omega
    rw [← heq]
    exact hmain.2

lemma join_matches_eq_key (x e1 : JoinCacheEntry) :
    x.matches e1.morphs e1.lm_search = decide (joinKey x = joinKey e1) := by
  by_cases h1 : x.lm_search = e1.lm_search <;>
    by_cases h2 : x.morphs = e1.morphs <;>
    simp [JoinCacheEntry.matches, joinKey, Prod.ext_iff, h1, h2]

/-- C8: starting from any reachable cache state (length within capacity and,
for the dedup-on-insert caches, pairwise-distinct keys), inserting
`capacity + 1` entries with pairwise distinct keys leaves the cache in a
state where a lookup of the first-inserted key misses.  Stated for the
front-oriented shape shared by the five text caches (with the tokenize cache
shown to be an instance) and for the mirrored join cache (whose insert path
presupposes the inserted key was a miss). -/
theorem bounded_cache_eviction :
    (∀ (ε κ : Type) (inst : DecidableEq κ) (keyOf : ε → κ) (cap : Nat)
        (value : ε → List Token),
      1 ≤ cap →
      ∀ (st : List ε), (st.map keyOf).Nodup → st.length ≤ cap →
      ∀ (e1 : ε) (rest : List ε), rest.length = cap →
        (((e1 :: rest).map keyOf).Nodup) →
        (cacheLookupMTF (fun x => decide (keyOf x = keyOf e1)) value
            ((e1 :: rest).foldl (fun acc e => insertByKey keyOf cap e acc) st)).1
          = none) ∧
    (∀ (st : List JoinCacheEntry), st.length ≤ JOIN_CACHE_CAPACITY →
      ∀ (e1 : JoinCacheEntry) (rest : List JoinCacheEntry),
        rest.length = JOIN_CACHE_CAPACITY →
        joinKey e1 ∉ st.map joinKey →
        (∀ e ∈ rest, joinKey e ≠ joinKey e1) →
        (lookup_join_cache e1.morphs e1.lm_search
            ((e1 :: rest).foldl (fun acc e => insert_join_cache e acc) st)).1
          = none) ∧
    (∀ (text : String) (key : TokenizeCacheKey) (tokens : List Token)
        (c : List TokenizeCacheEntry),
      insert_tokenize_cache text key tokens c
        = insertByKey (fun e => (e.key, e.fingerprint, e.text))
            TOKENIZE_CACHE_CAPACITY
            { key := key, fingerprint := TextFingerprint.of text, text := text,
              tokens := tokens } c) ∧
    (∀ (text : String) (key : TokenizeCacheKey) (c : List TokenizeCacheEntry),
      lookup_tokenize_cache text key c
        = cacheLookupMTF
            (fun x => decide ((x.key, x.fingerprint, x.text)
              = (key, TextFingerprint.of text, text)))
            (fun e => e.tokens) c) := by
  have hmatches : ∀ (text : String) (key : TokenizeCacheKey)
      (x : TokenizeCacheEntry),
      x.matches text key (TextFingerprint.of text)
        = decide ((x.key, x.fingerprint, x.text)
            = (key, TextFingerprint.of text, text)) := by
    intro text key x
    by_cases h1 : x.key = key <;>
      by_cases h2 : x.fingerprint = TextFingerprint.of text <;>
      by_cases h3 : x.text = text <;>
      simp [TokenizeCacheEntry.matches, Prod.ext_iff, h1, h2, h3]
  refine ⟨?_, ?_, ?_, ?_⟩
  · intro ε κ inst keyOf cap value hcap st hstnd hstlen e1 rest hrestlen hnd
    rw [List.map_cons, List.nodup_cons] at hnd
    obtain ⟨he1, hrestnd⟩ := hnd
    rw [List.foldl_cons]
    obtain ⟨hnd1, hlen1⟩ := insertByKey_basic e1 hcap hstnd hstlen
    have hinv1 : FrontEvictionInv keyOf (keyOf e1) [] 0
        (insertByKey keyOf cap e1 st) := by
      right
      refine ⟨[], e1,
        (if cap ≤ (st.filter (fun x => !(decide (keyOf x = keyOf e1)))).length
          then (st.filter (fun x => !(decide (keyOf x = keyOf e1)))).dropLast
          else st.filter (fun x => !(decide (keyOf x = keyOf e1)))),
        by rw [insertByKey_closed keyOf cap e1 st hstnd]; rfl,
        rfl, Nat.zero_le _, fun x hx => absurd hx (List.not_mem_nil x)⟩
    have hfold := front_eviction_fold hcap rest (insertByKey keyOf cap e1 st)
      [] 0 hnd1 hlen1
      (fun e he hk => he1 (List.mem_map.mpr ⟨e, he, hk⟩))
      hrestnd
      (fun e _ h => absurd h (List.not_mem_nil _))
      (List.not_mem_nil _)
      hinv1
    obtain ⟨-, hlenf, hinvf⟩ := hfold
    have hout : keyOf e1 ∉
        (rest.foldl (fun acc e => insertByKey keyOf cap e acc)
          (insertByKey keyOf cap e1 st)).map keyOf := by
      rcases hinvf with h | ⟨pre, e1', post, hc, -, hb, -⟩
      · exact h
      · exfalso
        rw [Nat.zero_add, hrestlen] at hb
        have : cap + 1 ≤ (rest.foldl (fun acc e => insertByKey keyOf cap e acc)
            (insertByKey keyOf cap e1 st)).length := by
          rw [hc]
          simp only [List.length_append, List.length_cons]
          omega
        omega
    have hpos : position? (fun x => decide (keyOf x = keyOf e1))
        (rest.foldl (fun acc e => insertByKey keyOf cap e acc)
          (insertByKey keyOf cap e1 st)) = none := by
      refine position?_eq_none ?_
      intro x hx
      simp only [decide_eq_false_iff_not]
      intro hk
      exact hout (List.mem_map.mpr ⟨x, hx, hk⟩)
    rw [cacheLookupMTF_none value hpos]
  · intro st hstlen e1 rest hrestlen hstk1 hrestk1
    rw [List.foldl_cons]
    have hinv1 : JoinEvictionInv (joinKey e1) 0 (insert_join_cache e1 st) := by
      right
      refine ⟨(if JOIN_CACHE_CAPACITY ≤ st.length then st.drop 1 else st), e1, [],
        rfl, rfl, Nat.le_refl 0, ?_, List.not_mem_nil _⟩
      intro h
      obtain ⟨x, hx, hxk⟩ := List.mem_map.mp h
      have hxc : x ∈ st := by
        revert hx
        split
        · exact fun hx => (List.drop_subset 1 st) hx
        · exact fun hx => hx
      exact hstk1 (List.mem_map.mpr ⟨x, hxc, hxk⟩)
    have hfold := join_eviction_fold rest (insert_join_cache e1 st) 0
      (insert_join_cache_length hstlen) hrestk1 hinv1
    obtain ⟨hlenf, hinvf⟩ := hfold
    have hout : joinKey e1 ∉
        (rest.foldl (fun acc e => insert_join_cache e acc)
          (insert_join_cache e1 st)).map joinKey := by
      rcases hinvf with h | ⟨pre, e1', post, hc, -, hb, -, -⟩
      · exact h
      · exfalso
        rw [Nat.zero_add, hrestlen] at hb
        have : JOIN_CACHE_CAPACITY + 1 ≤
            (rest.foldl (fun acc e => insert_join_cache e acc)
              (insert_join_cache e1 st)).length := by
          rw [hc]
          simp only [List.length_append, List.length_cons]
          omega
        omega
    have hpos : position? (fun x => x.matches e1.morphs e1.lm_search)
        (rest.foldl (fun acc e => insert_join_cache e acc)
          (insert_join_cache e1 st)) = none := by
      refine position?_eq_none ?_
      intro x hx
      rw [join_matches_eq_key]
      simp only [decide_eq_false_iff_not]
      intro hk
      exact hout (List.mem_map.mpr ⟨x, hx, hk⟩)
    unfold lookup_join_cache
    rw [hpos]
  · intro text key tokens c
    unfold insert_tokenize_cache insertByKey
    have hp : (fun x : TokenizeCacheEntry =>
        x.matches text key (TextFingerprint.of text))
        = (fun x : TokenizeCacheEntry => decide ((x.key, x.fingerprint, x.text)
            = (key, TextFingerprint.of text, text))) := by
      funext x
      exact hmatches text key x
    rw [hp]
  · intro text key c
    unfold lookup_tokenize_cache
    have hp : (fun x : TokenizeCacheEntry =>
        x.matches text key (TextFingerprint.of text))
        = (fun x : TokenizeCacheEntry => decide ((x.key, x.fingerprint, x.text)
            = (key, TextFingerprint.of text, text))) := by
      funext x
      exact hmatches text key x
    rw [hp]

/-- Witness for C8: a capacity-1 front cache with keys `1, 2`, and the real
16-capacity join cache filled with 17 distinct morph sequences; the
first-inserted key misses in both. -/
theorem bounded_cache_eviction_witness :
    (cacheLookupMTF (fun x => decide (id x = id 1)) (fun _ => ([] : List Token))
        (([1, 2] : List Nat).foldl (fun acc e => insertByKey id 1 e acc) [])).1
      = none ∧
    (lookup_join_cache witnessJoinEntryA.morphs witnessJoinEntryA.lm_search
        ((witnessJoinEntryA :: witnessJoinCacheFull).foldl
          (fun acc e => insert_join_cache e acc) [])).1 = none := by
  constructor
  · exact bounded_cache_eviction.1 Nat Nat inferInstance id 1 (fun _ => [])
      (by decide) [] (by decide) (by decide) 1 [2] (by decide) (by decide)
  · exact bounded_cache_eviction.2.1 [] (by decide) witnessJoinEntryA
      witnessJoinCacheFull (by decide) (by decide) (by decide)
